import Mathlib

/-!
Verification of the bulk website-insights batch processor (`app.py`).

The development shallowly embeds the core of the program:
  - `scrape_site` (URL candidate construction and first-success fetching),
  - `get_ai_insights` (model call, crude JSON substring extraction,
    empty-field stripping),
  - `process_csv` (batch selection over a table, per-row merge of insight
    fields into a dynamically growing column set, status marking).

External effects are parameters: `requests.get` becomes a function
`String → Option String` (`none` models an exception or a non-200 status,
`some body` a 200 reply with that body — the code's truthiness test on the
body is kept explicitly); the chat endpoint becomes a function from the
prompt to a `ChatResult`; `json.loads` followed by `.items()` becomes a
function `String → Except String (List (String × JValue))` (a reply that
parses to a non-object is modelled as the exception the subsequent
`.items()` attribute access raises, which the same handler catches);
`BeautifulSoup(...).get_text(" ", strip=True)` becomes a function
`String → String`.  Python string primitives (`strip`, `startswith`,
`replace`, `find`, `rfind`, slicing) are modelled directly over character
lists with Python's semantics.
-/

/-- Characters stripped by Python's default `str.strip()` (ASCII range). -/
def isPySpace (c : Char) : Bool :=
  c = ' ' ∨ c = '\t' ∨ c = '\n' ∨ c = '\x0b' ∨ c = '\x0c' ∨ c = '\r'

/-- Python `s.strip()`: remove leading and trailing whitespace. -/
def pyStrip (s : String) : String :=
  String.mk (((s.toList.dropWhile isPySpace).reverse.dropWhile isPySpace).reverse)

/-- Python `s.startswith(p)`. -/
def pyStartswith (s p : String) : Bool :=
  p.toList.isPrefixOf s.toList

/-- One pass of Python `str.replace`: replace every non-overlapping
occurrence of `p :: ps` left to right.  The first argument is fuel,
instantiated with the length of the scanned list so that the recursion is
structural (the fuel never runs out on a non-empty list). -/
def pyReplaceChars (p : Char) (ps rep : List Char) : Nat → List Char → List Char
  | _, [] => []
  | 0, l => l
  | n + 1, c :: rest =>
    if (p :: ps).isPrefixOf (c :: rest) then
      rep ++ pyReplaceChars p ps rep n (rest.drop ps.length)
    else
      c :: pyReplaceChars p ps rep n rest

/-- Python `s.replace(pat, rep)` (all occurrences; empty pattern returns
`s` unchanged, a case the program never exercises). -/
def pyReplace (s pat rep : String) : String :=
  match pat.toList with
  | [] => s
  | p :: ps => String.mk (pyReplaceChars p ps rep.toList s.toList.length s.toList)

/-- Index of the first occurrence of a character in a list, if any. -/
def findIdxChar (c : Char) : List Char → Option Nat
  | [] => none
  | a :: l => if a = c then some 0 else (findIdxChar c l).map (· + 1)

/-- Python `s.find(c)`: index of the first occurrence, `-1` if absent. -/
def pyFind (s : String) (c : Char) : Int :=
  match findIdxChar c s.toList with
  | some i => (i : Int)
  | none => -1

/-- Python `s.rfind(c)`: index of the last occurrence, `-1` if absent. -/
def pyRfind (s : String) (c : Char) : Int :=
  match findIdxChar c s.toList.reverse with
  | some i => ((s.toList.length - 1 - i : Nat) : Int)
  | none => -1

/-- Python `s[a:b]` for the non-negative indices the program produces. -/
def pySlice (s : String) (a b : Int) : String :=
  String.mk ((s.toList.drop a.toNat).take (b.toNat - a.toNat))

/-- Python `s[:n]` truncation. -/
def pyTruncate (n : Nat) (s : String) : String :=
  String.mk (s.toList.take n)

/-- The opening brace character (ASCII 123). -/
def braceOpen : Char := Char.ofNat 123

/-- The closing brace character (ASCII 125). -/
def braceClose : Char := Char.ofNat 125

/-- A JSON value, as produced by `json.loads`. -/
inductive JValue where
  | jnull
  | jstr (s : String)
  | jnum (n : Int)
  | jbool (b : Bool)
  | jarr (xs : List JValue)
  | jobj (fs : List (String × JValue))

/-- A Python dict with string keys, in insertion order: the shape of every
value `get_ai_insights` returns and of a table row. -/
abbrev Fields := List (String × JValue)

/-- Python `v in ("", [], None)`: the emptiness test of the field-stripping
comprehension (line 91 of `app.py`). -/
def emptyVal : JValue → Bool
  | .jnull => true
  | .jstr s => s = ""
  | .jarr xs => xs.isEmpty
  | _ => false

/-- Outcome of `requests.get` inside `try_fetch`: `none` models a raised
exception or a non-200 status (both make `try_fetch` return `None`),
`some body` models a 200 reply carrying `r.text = body`. -/
abbrev Fetch := String → Option String

/-- The candidate list built by `scrape_site` (lines 36-41 of `app.py`):
strip the identifier, use it as-is when it starts with `"http"`, else drop
every occurrence of `"www."` and build the four scheme/host variants. -/
def attempts (url : String) : List String :=
  let raw := pyStrip url
  if pyStartswith raw "http" then [raw]
  else
    let base := pyReplace raw "www." ""
    ["https://" ++ base, "http://" ++ base, "https://www." ++ base, "http://www." ++ base]

/-- The fetch loop of `scrape_site` (lines 43-49), instrumented with the
list of candidate URLs actually passed to `try_fetch`.  A candidate
succeeds when `try_fetch` returns a truthy (non-empty) body, in which case
the soup-extracted text truncated to 4000 characters and that URL are
returned and no further candidate is tried. -/
def scrape_go (fetch : Fetch) (extract : String → String) :
    List String → (String × Option String) × List String
  | [] => (("SCRAPE_ERROR: Unable to fetch site", none), [])
  | link :: rest =>
    match fetch link with
    | some html =>
      if html.isEmpty then
        let r := scrape_go fetch extract rest
        (r.1, link :: r.2)
      else
        ((pyTruncate 4000 (extract html), some link), [link])
    | none =>
      let r := scrape_go fetch extract rest
      (r.1, link :: r.2)

/-- Function `scrape_site` (lines 35-49): returns `(content, resolved url)`. -/
def scrape_site (fetch : Fetch) (extract : String → String) (url : String) :
    String × Option String :=
  (scrape_go fetch extract (attempts url)).1

/-- The candidate URLs `scrape_site` actually fetches, in order. -/
def scrape_site_attempted (fetch : Fetch) (extract : String → String) (url : String) :
    List String :=
  (scrape_go fetch extract (attempts url)).2

/-- A candidate succeeds when the fetch yields a truthy (non-empty) body. -/
def fetchOk (fetch : Fetch) (link : String) : Bool :=
  match fetch link with
  | some html => !html.isEmpty
  | none => false

/-- Outcome of the `requests.post` / `r.json()` stage of `get_ai_insights`
(lines 76-81): a raised exception with text `e`, a JSON reply without a
`"choices"` key (the raw reply value is returned under `"error"`), or a
successful completion whose first choice's message content is `raw`. -/
inductive ChatResult where
  | exn (e : String)
  | noChoices (resp : JValue)
  | content (raw : String)

/-- The chat endpoint, as a function from the prompt to its outcome. -/
abbrev Chat := String → ChatResult

/-- Model of `json.loads` composed with `.items()`: either the parsed
object's key-value pairs in order, or the text of the exception raised
(by the parser, or by `.items()` when the parse is not an object). -/
abbrev Loads := String → Except String Fields

/-- The prompt template of `get_ai_insights` (lines 55-72). -/
def mkPrompt (url scraped_text : String) : String :=
  "\nExtract B2B-focused insights only.\nAvoid B2C except HNWI / UHNWI.\nReturn ONLY VALID JSON.\n\nJSON format:\n\x7b\n\"company_name\": \"\",\n\"main_products\": [],\n\"ideal_customers\": [],\n\"ideal_audience\": [],\n\"industry\": \"\",\n\"countries_of_operation\": []\n\x7d\n\nWebsite: " ++ url ++ "\nContent: " ++ scraped_text ++ "\n"

/-- Function `get_ai_insights` (lines 54-94): call the model, take the first
choice's message text, locate the first brace with `find` and the last
with `rfind` (note `end` is `rfind + 1`, so it is never `-1`), parse the
slice between them, and drop fields whose value is empty. -/
def get_ai_insights (chat : Chat) (loads : Loads) (url scraped_text : String) : Fields :=
  match chat (mkPrompt url scraped_text) with
  | .exn e => [("error", .jstr e)]
  | .noChoices resp => [("error", resp)]
  | .content raw =>
    let start : Int := pyFind raw braceOpen
    let stop : Int := pyRfind raw braceClose + 1
    if start = -1 ∨ stop = -1 then [("error", .jstr "Invalid AI JSON")]
    else
      match loads (pySlice raw start stop) with
      | .error e => [("error", .jstr e)]
      | .ok data => data.filter (fun kv => !(emptyVal kv.2))

/-- Following the claim's wording: an identifier "carries a scheme" when it
begins with `http://` or `https://`. -/
def claim_hasScheme (s : String) : Bool :=
  pyStartswith s "http://" || pyStartswith s "https://"

/-- Following the spec's wording "normalized (leading `www.` removed)":
remove a leading `www.` and nothing else. -/
def spec_stripLeadingWww (s : String) : String :=
  if pyStartswith s "www." then String.mk (s.toList.drop 4) else s

/-- Whether `pat` occurs as a contiguous block somewhere in the list. -/
def hasOcc (pat : List Char) : List Char → Bool
  | [] => pat.isPrefixOf []
  | c :: rest => pat.isPrefixOf (c :: rest) || hasOcc pat rest

/-- A table row: column-name / value pairs in column order. -/
abbrev Row := List (String × JValue)

/-- Python `str(v)` as applied to a cell before the blank test
(line 106).  Container reprs are abbreviated: the model is faithful in
that only blankness of the result is ever relevant and no container repr
is blank (Python reprs of lists and dicts never are). -/
def pyStr : JValue → String
  | .jstr s => s
  | .jnull => "None"
  | .jnum n => toString n
  | .jbool true => "True"
  | .jbool false => "False"
  | .jarr _ => "[...]"
  | .jobj _ => "\x7b...\x7d"

/-- Reading a cell of a row by column name (`row.get(c)`). -/
def getCell (r : Row) (c : String) : Option JValue :=
  (r.find? (fun kv => kv.1 == c)).map (fun kv => kv.2)

/-- Writing the cell of an existing column of a row. -/
def setCell (r : Row) (c : String) (v : JValue) : Row :=
  r.map (fun kv => if kv.1 == c then (c, v) else kv)

/-- The in-memory table: the column list and the rows. -/
structure Table where
  cols : List String
  rows : List Row

/-- Well-formedness, as pandas maintains it: no duplicate column names and
every row keyed exactly by the column list, in order. -/
def Table.WF (t : Table) : Prop :=
  t.cols.Nodup ∧ ∀ r ∈ t.rows, r.map Prod.fst = t.cols

/-- Assignment `df[c] = v` for a fresh column: append the column, fill every row. -/
def Table.addCol (t : Table) (c : String) (v : JValue) : Table :=
  ⟨t.cols ++ [c], t.rows.map (fun r => r ++ [(c, v)])⟩

/-- Apply a function to the element at one position of a list. -/
def updateAt {α : Type} (f : α → α) : Nat → List α → List α
  | _, [] => []
  | 0, x :: xs => f x :: xs
  | n + 1, x :: xs => x :: updateAt f n xs

/-- Assignment `df.loc[idx, c] = v`: update one cell (the code ensures the column
exists before every such write). -/
def Table.setAt (t : Table) (i : Nat) (c : String) (v : JValue) : Table :=
  ⟨t.cols, updateAt (fun r => setCell r c v) i t.rows⟩

/-- The cell of the table at row `i`, column `c`. -/
def Table.cellAt (t : Table) (i : Nat) (c : String) : Option JValue :=
  (t.rows.get? i).bind (fun r => getCell r c)

/-- The status cell of row `i`. -/
def Table.statusOf (t : Table) (i : Nat) : Option JValue :=
  t.cellAt i "status"

/-- The element-wise `!= 'done'` comparison of line 103: pandas compares
each status cell with the string, and a non-string cell is unequal. -/
def status_ne_done : JValue → Bool
  | .jstr s => !(s == "done")
  | _ => true

/-- The selection mask of line 103 on one row. -/
def not_done (r : Row) : Bool :=
  match getCell r "status" with
  | some v => status_ne_done v
  | none => true

/-- Lines 100-101: create the `status` column (empty strings) if absent. -/
def ensure_status (df : Table) : Table :=
  if "status" ∈ df.cols then df else df.addCol "status" (.jstr "")

/-- Line 103: the snapshot of up to `batch_size` rows (with positions)
whose status differs from `done`, in table order. -/
def to_process (df : Table) (batch_size : Nat) : List (Nat × Row) :=
  (df.rows.enum.filter (fun p => not_done p.2)).take batch_size

/-- Line 106: `str(row.get(website_column, "")).strip()`. -/
def siteOf (row : Row) (website_column : String) : String :=
  pyStrip (pyStr ((getCell row website_column).getD (.jstr "")))

/-- The website text of table row `i` as the loop would read it now. -/
def Table.siteAt (t : Table) (i : Nat) (website_column : String) : String :=
  pyStrip (pyStr ((t.cellAt i website_column).getD (.jstr "")))

/-- Lines 119-122: merge the insight fields into row `idx`, creating
missing columns (null-filled for every row) on demand. -/
def merge_insights (df : Table) (idx : Nat) (ai_data : Fields) : Table :=
  ai_data.foldl (fun df kv =>
    let df := if kv.1 ∈ df.cols then df else df.addCol kv.1 .jnull
    df.setAt idx kv.1 kv.2) df

/-- Accumulator of one batch run: the table plus how many `try_fetch`
requests and model requests were issued. -/
structure BatchState where
  df : Table
  fetch_calls : Nat
  model_calls : Nat

/-- Lines 105-125, one selected row: a blank identifier marks the row
`skipped` with no network call; otherwise the site is scraped, the model
called once, the fields merged, and the status set to `done`. -/
def process_row (fetch : Fetch) (extract : String → String) (chat : Chat) (loads : Loads)
    (website_column : String) (st : BatchState) (p : Nat × Row) : BatchState :=
  let site := siteOf p.2 website_column
  if site = "" then
    { df := st.df.setAt p.1 "status" (.jstr "skipped"),
      fetch_calls := st.fetch_calls, model_calls := st.model_calls }
  else
    let res := scrape_go fetch extract (attempts site)
    let ai_data := get_ai_insights chat loads (res.1.2.getD site) res.1.1
    { df := (merge_insights st.df p.1 ai_data).setAt p.1 "status" (.jstr "done"),
      fetch_calls := st.fetch_calls + res.2.length,
      model_calls := st.model_calls + 1 }

/-- Function `process_csv` (lines 99-127), instrumented with the call counters. -/
def process_csv_run (fetch : Fetch) (extract : String → String) (chat : Chat) (loads : Loads)
    (df : Table) (website_column : String) (batch_size : Nat) : BatchState :=
  let df := ensure_status df
  (to_process df batch_size).foldl (process_row fetch extract chat loads website_column)
    { df := df, fetch_calls := 0, model_calls := 0 }

/-- Function `process_csv`: the returned table. -/
def process_csv (fetch : Fetch) (extract : String → String) (chat : Chat) (loads : Loads)
    (df : Table) (website_column : String) (batch_size : Nat) : Table :=
  (process_csv_run fetch extract chat loads df website_column batch_size).df

/-- A concrete two-row table for evaluating the merge invariant. -/
def dfC2 : Table :=
  ⟨["website", "status"],
   [[("website", JValue.jstr "a.com"), ("status", JValue.jstr "")],
    [("website", JValue.jstr "b.com"), ("status", JValue.jstr "")]]⟩

/-- Concrete insight fields with a key unseen by the table. -/
def aiC2 : Fields :=
  [("industry", JValue.jstr "tech"), ("main_products", JValue.jarr [JValue.jstr "x"])]

/-- A one-row table whose website cell is blank. -/
def dfC1cx : Table := ⟨["website"], [[("website", JValue.jstr "")]]⟩

/-- A two-row table with one blank and one non-blank website. -/
def dfC1 : Table :=
  ⟨["website"], [[("website", JValue.jstr "")], [("website", JValue.jstr "a.b")]]⟩

/-- A table with one blank-website row and one already-done row. -/
def dfC7 : Table :=
  ⟨["website", "status"],
   [[("website", JValue.jstr "  "), ("status", JValue.jstr "")],
    [("website", JValue.jstr "x.com"), ("status", JValue.jstr "done")]]⟩

theorem isPrefixOf_append_self (l t : List Char) : l.isPrefixOf (l ++ t) = true := by
  induction l with
  | nil => simp [List.isPrefixOf]
  | cons a as ih => simp [List.isPrefixOf, ih]

theorem isPrefixOf_exists {l₁ l₂ : List Char} :
    l₁.isPrefixOf l₂ = true ↔ ∃ t, l₂ = l₁ ++ t := by
  induction l₁ generalizing l₂ with
  | nil => simp [List.isPrefixOf]
  | cons a as ih =>
    cases l₂ with
    | nil => simp [List.isPrefixOf]
    | cons b bs =>
      simp only [List.isPrefixOf, Bool.and_eq_true, beq_iff_eq, ih, List.cons_append,
        List.cons.injEq]
      constructor
      · rintro ⟨rfl, t, rfl⟩
        exact ⟨t, rfl, rfl⟩
      · rintro ⟨t, rfl, rfl⟩
        exact ⟨rfl, t, rfl⟩

theorem pyStartswith_of_http_scheme {s : String} (h : claim_hasScheme s = true) :
    pyStartswith s "http" = true := by
  unfold pyStartswith
  rcases Bool.or_eq_true_iff.mp h with h' | h'
  · rcases isPrefixOf_exists.mp h' with ⟨t, ht⟩
    apply isPrefixOf_exists.mpr
    exact ⟨"://".toList ++ t, by rw [ht]; rfl⟩
  · rcases isPrefixOf_exists.mp h' with ⟨t, ht⟩
    apply isPrefixOf_exists.mpr
    exact ⟨"s://".toList ++ t, by rw [ht]; rfl⟩

/-- The four candidates built for a stripped identifier that does not begin
with `"http"`. -/
theorem attempts_of_not_http {url : String}
    (h : pyStartswith (pyStrip url) "http" = false) :
    attempts url =
      ["https://" ++ pyReplace (pyStrip url) "www." "",
       "http://" ++ pyReplace (pyStrip url) "www." "",
       "https://www." ++ pyReplace (pyStrip url) "www." "",
       "http://www." ++ pyReplace (pyStrip url) "www." ""] := by
  unfold attempts
  simp [h]

/-- A stripped identifier beginning with `"http"` is the single candidate. -/
theorem attempts_of_http {url : String}
    (h : pyStartswith (pyStrip url) "http" = true) :
    attempts url = [pyStrip url] := by
  unfold attempts
  simp [h]

/-- When every candidate fails (exception, non-200 status, or empty body),
the loop tries them all and returns the sentinel with no resolved URL. -/
theorem scrape_go_all_fail (fetch : Fetch) (extract : String → String) :
    ∀ links : List String, (∀ l ∈ links, fetchOk fetch l = false) →
      scrape_go fetch extract links = (("SCRAPE_ERROR: Unable to fetch site", none), links) := by
  intro links
  induction links with
  | nil => intro _; rfl
  | cons l rest ih =>
    intro h
    have hl : fetchOk fetch l = false := h l (by simp)
    have hrest := ih (fun x hx => h x (by simp [hx]))
    unfold scrape_go
    cases hfl : fetch l with
    | none => simp [hrest]
    | some html =>
      have hemp : html.isEmpty = true := by
        unfold fetchOk at hl
        rw [hfl] at hl
        simpa using hl
      simp [hemp, hrest]

/-- The candidates actually fetched are the failing ones up to and
including the first success (all of them when none succeeds). -/
theorem scrape_go_attempted (fetch : Fetch) (extract : String → String) :
    ∀ links : List String,
      (scrape_go fetch extract links).2 =
        links.takeWhile (fun l => !fetchOk fetch l) ++
          (links.dropWhile (fun l => !fetchOk fetch l)).take 1 := by
  intro links
  induction links with
  | nil => rfl
  | cons l rest ih =>
    unfold scrape_go
    cases hfl : fetch l with
    | none =>
      have : fetchOk fetch l = false := by unfold fetchOk; rw [hfl]
      simp [List.takeWhile_cons, List.dropWhile_cons, this, ih]
    | some html =>
      cases hemp : html.isEmpty with
      | true =>
        have : fetchOk fetch l = false := by unfold fetchOk; rw [hfl]; simpa using hemp
        simp [hemp, List.takeWhile_cons, List.dropWhile_cons, this, ih]
      | false =>
        have : fetchOk fetch l = true := by unfold fetchOk; rw [hfl]; simpa using hemp
        simp [hemp, List.takeWhile_cons, List.dropWhile_cons, this]

/-- The resolved URL is the first candidate with a truthy body, if any. -/
theorem scrape_go_resolved (fetch : Fetch) (extract : String → String) :
    ∀ links : List String,
      (scrape_go fetch extract links).1.2 =
        (links.dropWhile (fun l => !fetchOk fetch l)).head? := by
  intro links
  induction links with
  | nil => rfl
  | cons l rest ih =>
    unfold scrape_go
    cases hfl : fetch l with
    | none =>
      have : fetchOk fetch l = false := by unfold fetchOk; rw [hfl]
      simp [List.dropWhile_cons, this, ih]
    | some html =>
      cases hemp : html.isEmpty with
      | true =>
        have : fetchOk fetch l = false := by unfold fetchOk; rw [hfl]; simpa using hemp
        simp [hemp, List.dropWhile_cons, this, ih]
      | false =>
        have : fetchOk fetch l = true := by unfold fetchOk; rw [hfl]; simpa using hemp
        simp [hemp, List.dropWhile_cons, this]

/-- The fuel argument of `pyReplaceChars` is irrelevant once it covers the
length of the scanned list. -/
theorem pyReplaceChars_fuel (p : Char) (ps rep : List Char) :
    ∀ f₁ f₂ l, l.length ≤ f₁ → l.length ≤ f₂ →
      pyReplaceChars p ps rep f₁ l = pyReplaceChars p ps rep f₂ l := by
  intro f₁
  induction f₁ with
  | zero =>
    intro f₂ l h₁ _
    cases l with
    | nil => cases f₂ <;> rfl
    | cons c rest => simp at h₁
  | succ n ih =>
    intro f₂ l h₁ h₂
    cases l with
    | nil => cases f₂ <;> rfl
    | cons c rest =>
      cases f₂ with
      | zero => simp at h₂
      | succ m =>
        simp only [pyReplaceChars]
        simp only [List.length_cons, Nat.add_le_add_iff_right] at h₁ h₂
        by_cases hp : (p :: ps).isPrefixOf (c :: rest) = true
        · simp only [hp, if_true]
          exact congrArg (rep ++ ·)
            (ih m _ (by simp only [List.length_drop]; omega) (by simp only [List.length_drop]; omega))
        · simp only [hp, if_false, Bool.false_eq_true]
          exact congrArg (c :: ·) (ih m rest h₁ h₂)

/-- A list with no occurrence of the pattern is left unchanged. -/
theorem pyReplaceChars_no_occ (p : Char) (ps rep : List Char) :
    ∀ l f, l.length ≤ f → hasOcc (p :: ps) l = false →
      pyReplaceChars p ps rep f l = l := by
  intro l
  induction l with
  | nil => intro f _ _; cases f <;> rfl
  | cons c rest ih =>
    intro f hf h
    cases f with
    | zero => simp at hf
    | succ m =>
      simp only [hasOcc, Bool.or_eq_false_iff] at h
      simp only [pyReplaceChars, h.1, if_false, Bool.false_eq_true]
      exact congrArg (c :: ·) (ih m (by simp at hf; omega) h.2)

/-- Removing the leading `www.` is one step of the replace-all scan. -/
theorem pyReplace_www_leading (s : String) :
    pyReplace ("www." ++ s) "www." "" = pyReplace s "www." "" := by
  show String.mk
      (pyReplaceChars 'w' ['w', 'w', '.'] [] ("www." ++ s).toList.length ("www." ++ s).toList) =
    String.mk (pyReplaceChars 'w' ['w', 'w', '.'] [] s.toList.length s.toList)
  have h1 : ("www." ++ s).toList = 'w' :: 'w' :: 'w' :: '.' :: s.toList := by
    have : ("www." ++ s).toList = "www.".toList ++ s.toList := by simp
    rw [this]
    rfl
  rw [h1]
  have hc : (('w' : Char) :: ['w', 'w', '.']).isPrefixOf ('w' :: 'w' :: 'w' :: '.' :: s.toList) = true :=
    isPrefixOf_append_self ['w', 'w', 'w', '.'] s.toList
  simp only [List.length_cons, pyReplaceChars, hc, if_true, List.nil_append]
  exact congrArg String.mk
    (pyReplaceChars_fuel 'w' ['w', 'w', '.'] [] _ _ s.toList (by simp; omega) (by simp))

/-- A string with no occurrence of `www.` is left unchanged by the
normalization. -/
theorem pyReplace_no_occ (s : String) (h : hasOcc "www.".toList s.toList = false) :
    pyReplace s "www." "" = s := by
  show String.mk (pyReplaceChars 'w' ['w', 'w', '.'] [] s.toList.length s.toList) = s
  rw [pyReplaceChars_no_occ 'w' ['w', 'w', '.'] [] s.toList s.toList.length (Nat.le_refl _) h]
  cases s
  rfl

/-- C5 (amended): for every identifier whose stripped text does not begin
with `"http"`, exactly the four candidates `https://host`, `http://host`,
`https://www.host`, `http://www.host` (with `host` the stripped text with
every `www.` occurrence removed) are attempted in that order, and fetching
stops at the first success; for an identifier carrying an actual scheme
(`http://` or `https://`), exactly one candidate — the stripped identifier
as-is — is attempted, and every identifier actually carrying a scheme
(`http://` or `https://`) is of that kind.  The original claim's guard
"lacking a scheme" is corrected to the code's `startswith("http")` test,
which the counterexample `"httpexample.com"` separates from it. -/
theorem C5_candidate_trial_sequence (fetch : Fetch) (extract : String → String) (url : String) :
    (pyStartswith (pyStrip url) "http" = false →
      attempts url =
        ["https://" ++ pyReplace (pyStrip url) "www." "",
         "http://" ++ pyReplace (pyStrip url) "www." "",
         "https://www." ++ pyReplace (pyStrip url) "www." "",
         "http://www." ++ pyReplace (pyStrip url) "www." ""] ∧
      scrape_site_attempted fetch extract url =
        (attempts url).takeWhile (fun l => !fetchOk fetch l) ++
          ((attempts url).dropWhile (fun l => !fetchOk fetch l)).take 1 ∧
      (scrape_site fetch extract url).2 =
        ((attempts url).dropWhile (fun l => !fetchOk fetch l)).head?) ∧
    (pyStartswith (pyStrip url) "http" = true →
      attempts url = [pyStrip url] ∧
      scrape_site_attempted fetch extract url = [pyStrip url]) ∧
    (claim_hasScheme (pyStrip url) = true → pyStartswith (pyStrip url) "http" = true) := by
  refine ⟨?_, ?_, fun h => pyStartswith_of_http_scheme h⟩
  · intro h
    exact ⟨attempts_of_not_http h, scrape_go_attempted fetch extract (attempts url),
      scrape_go_resolved fetch extract (attempts url)⟩
  · intro h
    have ha := attempts_of_http h
    refine ⟨ha, ?_⟩
    unfold scrape_site_attempted
    rw [ha, scrape_go_attempted]
    cases hf : fetchOk fetch (pyStrip url) <;> simp [hf]

/-- C5 counterexample: `"httpexample.com"` carries no scheme, yet exactly
one candidate (the identifier as-is) is attempted, not the four variants
the claim requires for every scheme-less identifier. -/
theorem C5_counterexample :
    claim_hasScheme (pyStrip "httpexample.com") = false ∧
    scrape_site_attempted (fun _ => none) (fun h => h) "httpexample.com" = ["httpexample.com"] ∧
    ["httpexample.com"] ≠
      ["https://httpexample.com", "http://httpexample.com",
       "https://www.httpexample.com", "http://www.httpexample.com"] := by
  refine ⟨by decide, by decide, by simp⟩

/-- C5 witness: a scheme-less identifier (first candidate failing, second
succeeding), the scheme-less `http`-leading identifier `httpfoo.com`, and
a genuinely scheme-carrying one. -/
theorem C5_witness :
    (pyStartswith (pyStrip " example.com ") "http" = false ∧
      (attempts " example.com " =
        ["https://" ++ pyReplace (pyStrip " example.com ") "www." "",
         "http://" ++ pyReplace (pyStrip " example.com ") "www." "",
         "https://www." ++ pyReplace (pyStrip " example.com ") "www." "",
         "http://www." ++ pyReplace (pyStrip " example.com ") "www." ""] ∧
       scrape_site_attempted (fun l => if l = "http://example.com" then some "body" else none)
          (fun h => h) " example.com " =
        (attempts " example.com ").takeWhile
            (fun l => !fetchOk (fun l => if l = "http://example.com" then some "body" else none) l) ++
          ((attempts " example.com ").dropWhile
            (fun l => !fetchOk (fun l => if l = "http://example.com" then some "body" else none) l)).take 1 ∧
       (scrape_site (fun l => if l = "http://example.com" then some "body" else none)
          (fun h => h) " example.com ").2 =
        ((attempts " example.com ").dropWhile
          (fun l => !fetchOk (fun l => if l = "http://example.com" then some "body" else none) l)).head?)) ∧
    scrape_site_attempted (fun l => if l = "http://example.com" then some "body" else none)
        (fun h => h) " example.com " = ["https://example.com", "http://example.com"] ∧
    (pyStartswith (pyStrip "httpfoo.com") "http" = true ∧
      (attempts "httpfoo.com" = [pyStrip "httpfoo.com"] ∧
       scrape_site_attempted (fun l => if l = "http://example.com" then some "body" else none)
          (fun h => h) "httpfoo.com" = [pyStrip "httpfoo.com"])) ∧
    (pyStartswith (pyStrip "https://x.org") "http" = true ∧
      (attempts "https://x.org" = [pyStrip "https://x.org"] ∧
       scrape_site_attempted (fun l => if l = "http://example.com" then some "body" else none)
          (fun h => h) "https://x.org" = [pyStrip "https://x.org"])) ∧
    (claim_hasScheme (pyStrip "https://x.org") = true ∧
      pyStartswith (pyStrip "https://x.org") "http" = true) :=
  ⟨⟨by decide,
    (C5_candidate_trial_sequence (fun l => if l = "http://example.com" then some "body" else none)
      (fun h => h) " example.com ").1 (by decide)⟩,
   by decide,
   ⟨by decide,
    (C5_candidate_trial_sequence (fun l => if l = "http://example.com" then some "body" else none)
      (fun h => h) "httpfoo.com").2.1 (by decide)⟩,
   ⟨by decide,
    (C5_candidate_trial_sequence (fun l => if l = "http://example.com" then some "body" else none)
      (fun h => h) "https://x.org").2.1 (by decide)⟩,
   by decide,
   (C5_candidate_trial_sequence (fun l => if l = "http://example.com" then some "body" else none)
      (fun h => h) "https://x.org").2.2 (by decide)⟩

/-- C8 (amended): for every scheme-less identifier the host used to build
the four candidate URLs equals the stripped identifier with every
occurrence of `www.` removed (left to right, non-overlapping), not only a
leading one; when `www.` occurs only as the leading block, this agrees
with removing the leading `www.`, and a string without any `www.`
occurrence is left unchanged. -/
theorem C8_www_removal :
    (∀ url : String, pyStartswith (pyStrip url) "http" = false →
      attempts url =
        ["https://" ++ pyReplace (pyStrip url) "www." "",
         "http://" ++ pyReplace (pyStrip url) "www." "",
         "https://www." ++ pyReplace (pyStrip url) "www." "",
         "http://www." ++ pyReplace (pyStrip url) "www." ""]) ∧
    (∀ s : String, pyReplace ("www." ++ s) "www." "" = pyReplace s "www." "") ∧
    (∀ s : String, hasOcc "www.".toList s.toList = false → pyReplace s "www." "" = s) := by
  exact ⟨fun url h => attempts_of_not_http h, pyReplace_www_leading, pyReplace_no_occ⟩

/-- C8 counterexample: for `"sub.www.example.com"` the leading-`www.`
normalization the claim describes would keep the identifier unchanged, but
the code removes the interior `www.` as well, producing candidate hosts
`sub.example.com`. -/
theorem C8_counterexample :
    spec_stripLeadingWww "sub.www.example.com" = "sub.www.example.com" ∧
    attempts "sub.www.example.com" =
      ["https://sub.example.com", "http://sub.example.com",
       "https://www.sub.example.com", "http://www.sub.example.com"] ∧
    attempts "sub.www.example.com" ≠
      ["https://sub.www.example.com", "http://sub.www.example.com",
       "https://www.sub.www.example.com", "http://www.sub.www.example.com"] := by
  refine ⟨by decide, by decide, by decide⟩

/-- C8 witness: the amended statement evaluated at concrete strings. -/
theorem C8_witness :
    (pyStartswith (pyStrip "sub.www.example.com") "http" = false ∧
      attempts "sub.www.example.com" =
        ["https://" ++ pyReplace (pyStrip "sub.www.example.com") "www." "",
         "http://" ++ pyReplace (pyStrip "sub.www.example.com") "www." "",
         "https://www." ++ pyReplace (pyStrip "sub.www.example.com") "www." "",
         "http://www." ++ pyReplace (pyStrip "sub.www.example.com") "www." ""]) ∧
    pyReplace ("www." ++ "foo.com") "www." "" = pyReplace "foo.com" "www." "" ∧
    (hasOcc "www.".toList "example.com".toList = false ∧
      pyReplace "example.com" "www." "" = "example.com") :=
  ⟨⟨by decide, C8_www_removal.1 "sub.www.example.com" (by decide)⟩,
   C8_www_removal.2.1 "foo.com",
   by decide, C8_www_removal.2.2 "example.com" (by decide)⟩

/-- C9: when every candidate fetch fails (exception, non-200 status, or
empty body), `scrape_site` returns the sentinel string, which begins with
`"SCRAPE_ERROR: "`, together with an absent resolved URL — as an ordinary
return value.  In the embedding every fetch-attempt exception is already a
`none` value of the total function `fetch`, so no exception can reach the
caller. -/
theorem C9_total_failure_sentinel (fetch : Fetch) (extract : String → String) (url : String)
    (h : ∀ l ∈ attempts url, fetchOk fetch l = false) :
    scrape_site fetch extract url = ("SCRAPE_ERROR: Unable to fetch site", none) ∧
    pyStartswith (scrape_site fetch extract url).1 "SCRAPE_ERROR: " = true := by
  have hall := scrape_go_all_fail fetch extract (attempts url) h
  have h1 : scrape_site fetch extract url = ("SCRAPE_ERROR: Unable to fetch site", none) := by
    unfold scrape_site
    rw [hall]
  exact ⟨h1, by rw [h1]; decide⟩

/-- C9 witness: a fetch oracle that always fails, on a bare identifier. -/
theorem C9_witness :
    (∀ l ∈ attempts "example.com", fetchOk (fun _ => none) l = false) ∧
    scrape_site (fun _ => none) (fun h => h) "example.com" =
      ("SCRAPE_ERROR: Unable to fetch site", none) ∧
    pyStartswith (scrape_site (fun _ => none) (fun h => h) "example.com").1 "SCRAPE_ERROR: " = true :=
  ⟨by decide, C9_total_failure_sentinel (fun _ => none) (fun h => h) "example.com" (by decide)⟩

/-- C10: an identifier whose stripping begins with the four characters
`http` — including strings carrying no actual scheme, such as
`httpexample.com` — is attempted exactly once, as-is, and the four
scheme/host variants are never built. -/
theorem C10_scheme_detection_asis (fetch : Fetch) (extract : String → String) (url : String)
    (h : pyStartswith (pyStrip url) "http" = true) :
    attempts url = [pyStrip url] ∧
    scrape_site_attempted fetch extract url = [pyStrip url] := by
  have ha := attempts_of_http h
  refine ⟨ha, ?_⟩
  unfold scrape_site_attempted
  rw [ha, scrape_go_attempted]
  cases hf : fetchOk fetch (pyStrip url) <;> simp [hf]

/-- C10 witness: `httpexample.com` evaluated concretely. -/
theorem C10_witness :
    pyStartswith (pyStrip "httpexample.com") "http" = true ∧
    (attempts "httpexample.com" = [pyStrip "httpexample.com"] ∧
      scrape_site_attempted (fun _ => none) (fun h => h) "httpexample.com" =
        [pyStrip "httpexample.com"]) :=
  ⟨by decide, C10_scheme_detection_asis (fun _ => none) (fun h => h) "httpexample.com" (by decide)⟩

theorem findIdxChar_eq_none {c : Char} : ∀ {l : List Char},
    findIdxChar c l = none ↔ ∀ x ∈ l, x ≠ c := by
  intro l
  induction l with
  | nil => simp [findIdxChar]
  | cons a as ih =>
    by_cases ha : a = c
    · subst ha
      simp [findIdxChar]
    · simp [findIdxChar, ha, ih]

theorem findIdxChar_append {c : Char} {A B : List Char} (hA : ∀ a ∈ A, a ≠ c) :
    findIdxChar c (A ++ c :: B) = some A.length := by
  induction A with
  | nil => simp [findIdxChar]
  | cons a as ih =>
    have ha : a ≠ c := hA a (by simp)
    have := ih (fun x hx => hA x (by simp [hx]))
    simp [findIdxChar, ha, this]

theorem pyFind_decomp {raw : String} {A R : List Char} {c : Char}
    (hdec : raw.toList = A ++ c :: R) (hA : ∀ a ∈ A, a ≠ c) :
    pyFind raw c = (A.length : Int) := by
  unfold pyFind
  rw [hdec, findIdxChar_append hA]

theorem pyRfind_decomp {raw : String} {A C : List Char} {c : Char}
    (hdec : raw.toList = A ++ c :: C) (hC : ∀ x ∈ C, x ≠ c) :
    pyRfind raw c = (A.length : Int) := by
  unfold pyRfind
  have hrev : raw.toList.reverse = C.reverse ++ c :: A.reverse := by
    rw [hdec]
    simp
  have hCrev : ∀ x ∈ C.reverse, x ≠ c := fun x hx => hC x (List.mem_reverse.mp hx)
  rw [hrev, findIdxChar_append hCrev]
  have hlen : raw.toList.length = A.length + 1 + C.length := by
    rw [hdec]
    simp
    omega
  simp only [List.length_reverse]
  rw [hlen]
  congr 1
  omega

/-- Successful path of the JSON substring extraction: when the message
text decomposes around its first `(` -brace and last `)` -brace — written
here as `A ++ braceOpen :: (B ++ braceClose :: C)` — the parsed input is
exactly the slice from the first opening brace through the last closing
brace, and the result is the parse with empty-valued fields dropped. -/
theorem get_ai_insights_content_parse (loads : Loads) (u t raw : String)
    (A B C : List Char) (fields : Fields)
    (hdec : raw.toList = A ++ braceOpen :: (B ++ braceClose :: C))
    (hA : ∀ a ∈ A, a ≠ braceOpen) (hC : ∀ x ∈ C, x ≠ braceClose)
    (hparse : loads (String.mk (braceOpen :: (B ++ [braceClose]))) = .ok fields) :
    pySlice raw (pyFind raw braceOpen) (pyRfind raw braceClose + 1) =
      String.mk (braceOpen :: (B ++ [braceClose])) ∧
    get_ai_insights (fun _ => .content raw) loads u t =
      fields.filter (fun kv => !(emptyVal kv.2)) := by
  have hfind : pyFind raw braceOpen = (A.length : Int) := pyFind_decomp hdec hA
  have hrfind : pyRfind raw braceClose = ((A.length + 1 + B.length : Nat) : Int) := by
    have hdec2 : raw.toList = (A ++ braceOpen :: B) ++ braceClose :: C := by
      rw [hdec]
      simp
    have := pyRfind_decomp hdec2 hC
    rw [this]
    congr 1
    simp
    omega
  have hslice : pySlice raw ((A.length : Nat) : Int) (((A.length + 1 + B.length : Nat) : Int) + 1) =
      String.mk (braceOpen :: (B ++ [braceClose])) := by
    unfold pySlice
    have h1 : (((A.length : Nat) : Int)).toNat = A.length := by omega
    have h2 : ((((A.length + 1 + B.length : Nat) : Int)) + 1).toNat = A.length + B.length + 2 := by
      omega
    rw [h1, h2, hdec]
    rw [show A.length + B.length + 2 - A.length = B.length + 2 from by omega]
    rw [List.drop_left]
    have hsplit : braceOpen :: (B ++ braceClose :: C) = (braceOpen :: (B ++ [braceClose])) ++ C := by
      simp
    rw [hsplit]
    have hlen : (braceOpen :: (B ++ [braceClose])).length = B.length + 2 := by
      simp
    rw [← hlen, List.take_left]
  refine ⟨by rw [hfind, hrfind]; exact hslice, ?_⟩
  show (if pyFind raw braceOpen = -1 ∨ pyRfind raw braceClose + 1 = -1 then
      ([("error", JValue.jstr "Invalid AI JSON")] : Fields)
    else
      match loads (pySlice raw (pyFind raw braceOpen) (pyRfind raw braceClose + 1)) with
      | .error e => [("error", JValue.jstr e)]
      | .ok data => data.filter (fun kv => !(emptyVal kv.2))) =
    fields.filter (fun kv => !(emptyVal kv.2))
  rw [hfind, hrfind]
  rw [if_neg (by omega)]
  rw [hslice, hparse]

/-- C3 (amended): when the message text has a first opening brace and a
last closing brace delimiting text that parses as a JSON object,
`get_ai_insights` parses exactly the substring from the first opening
brace through the last closing brace, and returns that parse with
empty-valued fields (empty string, empty list, null) dropped — in
particular exactly the parse whenever no field is empty, as in the spec's
example.  The original "returns exactly the parse" is corrected by the
empty-field stripping of line 91, exhibited in the counterexample. -/
theorem C3_json_substring_extraction (loads : Loads) (u t raw : String)
    (A B C : List Char) (fields : Fields)
    (hdec : raw.toList = A ++ braceOpen :: (B ++ braceClose :: C))
    (hA : ∀ a ∈ A, a ≠ braceOpen) (hC : ∀ x ∈ C, x ≠ braceClose)
    (hparse : loads (String.mk (braceOpen :: (B ++ [braceClose]))) = .ok fields) :
    pySlice raw (pyFind raw braceOpen) (pyRfind raw braceClose + 1) =
      String.mk (braceOpen :: (B ++ [braceClose])) ∧
    get_ai_insights (fun _ => .content raw) loads u t =
      fields.filter (fun kv => !(emptyVal kv.2)) ∧
    ((∀ kv ∈ fields, emptyVal kv.2 = false) →
      get_ai_insights (fun _ => .content raw) loads u t = fields) := by
  obtain ⟨h1, h2⟩ := get_ai_insights_content_parse loads u t raw A B C fields hdec hA hC hparse
  refine ⟨h1, h2, fun hne => ?_⟩
  rw [h2]
  apply List.filter_eq_self.mpr
  intro kv hkv
  simp [hne kv hkv]

/-- C3 counterexample: with conversational padding around the valid JSON
object `("a": "")` (braces written as words here), the parse of the
delimited substring is `[("a", "")]` but the function returns the empty
mapping, because the empty-string field is stripped — so the function does
not return "exactly the parse". -/
theorem C3_counterexample :
    (fun s => if s = "\x7b\"a\": \"\"\x7d" then
        (Except.ok ([("a", JValue.jstr "")] : Fields) : Except String Fields)
      else Except.error "unreachable")
      (pySlice "noise \x7b\"a\": \"\"\x7d tail"
        (pyFind "noise \x7b\"a\": \"\"\x7d tail" braceOpen)
        (pyRfind "noise \x7b\"a\": \"\"\x7d tail" braceClose + 1)) =
      Except.ok [("a", JValue.jstr "")] ∧
    get_ai_insights (fun _ => ChatResult.content "noise \x7b\"a\": \"\"\x7d tail")
      (fun s => if s = "\x7b\"a\": \"\"\x7d" then
        (Except.ok ([("a", JValue.jstr "")] : Fields) : Except String Fields)
      else Except.error "unreachable") "u" "t" = ([] : Fields) ∧
    ([] : Fields) ≠ [("a", JValue.jstr "")] :=
  ⟨rfl, rfl, by intro h; exact List.noConfusion h⟩

/-- C3 witness: the spec's example reply, with the final conjunct
evaluating the full function on it. -/
theorem C3_witness :
    (pySlice "sure, here you go: \x7b\"industry\": \"finance\"\x7d thanks"
        (pyFind "sure, here you go: \x7b\"industry\": \"finance\"\x7d thanks" braceOpen)
        (pyRfind "sure, here you go: \x7b\"industry\": \"finance\"\x7d thanks" braceClose + 1) =
      String.mk (braceOpen :: ("\"industry\": \"finance\"".toList ++ [braceClose])) ∧
     get_ai_insights
        (fun _ => .content "sure, here you go: \x7b\"industry\": \"finance\"\x7d thanks")
        (fun s => if s = "\x7b\"industry\": \"finance\"\x7d" then
          (Except.ok ([("industry", JValue.jstr "finance")] : Fields) : Except String Fields)
        else Except.error "unreachable") "u" "t" =
      ([("industry", JValue.jstr "finance")] : Fields).filter (fun kv => !(emptyVal kv.2)) ∧
     ((∀ kv ∈ ([("industry", JValue.jstr "finance")] : Fields), emptyVal kv.2 = false) →
      get_ai_insights
        (fun _ => .content "sure, here you go: \x7b\"industry\": \"finance\"\x7d thanks")
        (fun s => if s = "\x7b\"industry\": \"finance\"\x7d" then
          (Except.ok ([("industry", JValue.jstr "finance")] : Fields) : Except String Fields)
        else Except.error "unreachable") "u" "t" = [("industry", JValue.jstr "finance")])) ∧
    get_ai_insights
      (fun _ => .content "sure, here you go: \x7b\"industry\": \"finance\"\x7d thanks")
      (fun s => if s = "\x7b\"industry\": \"finance\"\x7d" then
        (Except.ok ([("industry", JValue.jstr "finance")] : Fields) : Except String Fields)
      else Except.error "unreachable") "u" "t" = [("industry", JValue.jstr "finance")] :=
  ⟨C3_json_substring_extraction
      (fun s => if s = "\x7b\"industry\": \"finance\"\x7d" then
        (Except.ok ([("industry", JValue.jstr "finance")] : Fields) : Except String Fields)
      else Except.error "unreachable")
      "u" "t" "sure, here you go: \x7b\"industry\": \"finance\"\x7d thanks"
      "sure, here you go: ".toList "\"industry\": \"finance\"".toList " thanks".toList
      [("industry", JValue.jstr "finance")]
      (by decide) (by decide) (by decide) rfl,
   rfl⟩

/-- C4 (amended): a reply lacking any opening brace yields
`(error: Invalid AI JSON)`; but a reply containing an opening brace and no
closing brace does not — `rfind` returns `-1`, `end` becomes `0`, the
never-`-1` test passes, and the parse of the empty slice fails, so the
outer handler returns the parser's exception text instead.  The original
claim expected `Invalid AI JSON` on that path too. -/
theorem C4_missing_brace_paths (loads : Loads) (u t raw e : String) :
    (braceOpen ∉ raw.toList →
      get_ai_insights (fun _ => .content raw) loads u t =
        [("error", JValue.jstr "Invalid AI JSON")]) ∧
    (braceOpen ∈ raw.toList → braceClose ∉ raw.toList → loads "" = .error e →
      get_ai_insights (fun _ => .content raw) loads u t = [("error", JValue.jstr e)]) := by
  constructor
  · intro h
    have hf : pyFind raw braceOpen = -1 := by
      unfold pyFind
      rw [findIdxChar_eq_none.mpr (fun x hx hxc => h (by rw [← hxc]; exact hx))]
    show (if pyFind raw braceOpen = -1 ∨ pyRfind raw braceClose + 1 = -1 then
        ([("error", JValue.jstr "Invalid AI JSON")] : Fields)
      else
        match loads (pySlice raw (pyFind raw braceOpen) (pyRfind raw braceClose + 1)) with
        | .error e => [("error", JValue.jstr e)]
        | .ok data => data.filter (fun kv => !(emptyVal kv.2))) =
      [("error", JValue.jstr "Invalid AI JSON")]
    rw [hf, if_pos (Or.inl rfl)]
  · intro hmem hnc hload
    have hne : findIdxChar braceOpen raw.toList ≠ none := by
      rw [Ne, findIdxChar_eq_none]
      push_neg
      exact ⟨braceOpen, hmem, rfl⟩
    obtain ⟨i, hi⟩ := Option.ne_none_iff_exists'.mp hne
    have hf : pyFind raw braceOpen = (i : Int) := by
      unfold pyFind
      rw [hi]
    have hr : pyRfind raw braceClose = -1 := by
      unfold pyRfind
      rw [findIdxChar_eq_none.mpr (fun x hx hxc => hnc (by rw [← hxc]; exact List.mem_reverse.mp hx))]
    show (if pyFind raw braceOpen = -1 ∨ pyRfind raw braceClose + 1 = -1 then
        ([("error", JValue.jstr "Invalid AI JSON")] : Fields)
      else
        match loads (pySlice raw (pyFind raw braceOpen) (pyRfind raw braceClose + 1)) with
        | .error e => [("error", JValue.jstr e)]
        | .ok data => data.filter (fun kv => !(emptyVal kv.2))) =
      [("error", JValue.jstr e)]
    rw [hf, hr, if_neg (by omega)]
    have hsl : pySlice raw (i : Int) (-1 + 1) = "" := by
      unfold pySlice
      have h0 : ((-1 : Int) + 1).toNat - ((i : Int)).toNat = 0 := by omega
      rw [h0, List.take_zero]
    rw [hsl, hload]

/-- C4 counterexample: the reply `ab(cd` (with an opening brace) has no
closing brace, yet the result carries the JSON parser's exception text for
the empty string, not `Invalid AI JSON`. -/
theorem C4_counterexample :
    get_ai_insights (fun _ => ChatResult.content "ab\x7bcd")
      (fun s => if s = "" then
        (Except.error "Expecting value: line 1 column 1 (char 0)" : Except String Fields)
      else Except.error "unreachable") "u" "t" =
      [("error", JValue.jstr "Expecting value: line 1 column 1 (char 0)")] ∧
    ([("error", JValue.jstr "Expecting value: line 1 column 1 (char 0)")] : Fields) ≠
      [("error", JValue.jstr "Invalid AI JSON")] := by
  refine ⟨rfl, ?_⟩
  intro h
  have h1 := List.head_eq_of_cons_eq h
  have h2 := congrArg Prod.snd h1
  simp only at h2
  have h3 := JValue.jstr.inj h2
  exact absurd h3 (by decide)

/-- C4 witness: both amended paths evaluated at concrete replies. -/
theorem C4_witness :
    (braceOpen ∉ "plain text".toList ∧
      get_ai_insights (fun _ => .content "plain text")
        (fun _ => (Except.error "unreachable" : Except String Fields)) "u" "t" =
        [("error", JValue.jstr "Invalid AI JSON")]) ∧
    (braceOpen ∈ "x\x7by".toList ∧ braceClose ∉ "x\x7by".toList ∧
      get_ai_insights (fun _ => .content "x\x7by")
        (fun _ => (Except.error "boom" : Except String Fields)) "u" "t" =
        [("error", JValue.jstr "boom")]) :=
  ⟨⟨by decide,
    (C4_missing_brace_paths (fun _ => (Except.error "unreachable" : Except String Fields))
      "u" "t" "plain text" "boom").1 (by decide)⟩,
   by decide, by decide,
   (C4_missing_brace_paths (fun _ => (Except.error "boom" : Except String Fields))
      "u" "t" "x\x7by" "boom").2 (by decide) (by decide) rfl⟩

/-- C6: on the successful parse path, the returned mapping keeps exactly
the key-value pairs whose value is not the empty string, the empty list,
or null, in order; a pair is in the result precisely when it is in the
parse with a non-empty value. -/
theorem C6_empty_field_stripping (loads : Loads) (u t raw : String)
    (A B C : List Char) (fields : Fields)
    (hdec : raw.toList = A ++ braceOpen :: (B ++ braceClose :: C))
    (hA : ∀ a ∈ A, a ≠ braceOpen) (hC : ∀ x ∈ C, x ≠ braceClose)
    (hparse : loads (String.mk (braceOpen :: (B ++ [braceClose]))) = .ok fields) :
    get_ai_insights (fun _ => .content raw) loads u t =
      fields.filter (fun kv => !(emptyVal kv.2)) ∧
    ∀ kv : String × JValue,
      kv ∈ get_ai_insights (fun _ => .content raw) loads u t ↔
        kv ∈ fields ∧ emptyVal kv.2 = false := by
  obtain ⟨-, h2⟩ := get_ai_insights_content_parse loads u t raw A B C fields hdec hA hC hparse
  refine ⟨h2, fun kv => ?_⟩
  rw [h2, List.mem_filter]
  simp [Bool.not_eq_true']

/-- C6 witness: a parse with an empty list field and an empty string
field; exactly those are removed, the other key survives. -/
theorem C6_witness :
    (get_ai_insights (fun _ => .content "ok \x7bX\x7d rest")
      (fun s => if s = "\x7bX\x7d" then
        (Except.ok ([("company_name", JValue.jstr "Acme"),
                     ("main_products", JValue.jarr []),
                     ("industry", JValue.jstr "")] : Fields) : Except String Fields)
      else Except.error "unreachable") "u" "t" =
      ([("company_name", JValue.jstr "Acme"),
        ("main_products", JValue.jarr []),
        ("industry", JValue.jstr "")] : Fields).filter (fun kv => !(emptyVal kv.2)) ∧
     ∀ kv : String × JValue,
      kv ∈ get_ai_insights (fun _ => .content "ok \x7bX\x7d rest")
        (fun s => if s = "\x7bX\x7d" then
          (Except.ok ([("company_name", JValue.jstr "Acme"),
                       ("main_products", JValue.jarr []),
                       ("industry", JValue.jstr "")] : Fields) : Except String Fields)
        else Except.error "unreachable") "u" "t" ↔
        kv ∈ ([("company_name", JValue.jstr "Acme"),
               ("main_products", JValue.jarr []),
               ("industry", JValue.jstr "")] : Fields) ∧ emptyVal kv.2 = false) ∧
    get_ai_insights (fun _ => .content "ok \x7bX\x7d rest")
      (fun s => if s = "\x7bX\x7d" then
        (Except.ok ([("company_name", JValue.jstr "Acme"),
                     ("main_products", JValue.jarr []),
                     ("industry", JValue.jstr "")] : Fields) : Except String Fields)
      else Except.error "unreachable") "u" "t" = [("company_name", JValue.jstr "Acme")] :=
  ⟨C6_empty_field_stripping
      (fun s => if s = "\x7bX\x7d" then
        (Except.ok ([("company_name", JValue.jstr "Acme"),
                     ("main_products", JValue.jarr []),
                     ("industry", JValue.jstr "")] : Fields) : Except String Fields)
      else Except.error "unreachable")
      "u" "t" "ok \x7bX\x7d rest" "ok ".toList "X".toList " rest".toList
      [("company_name", JValue.jstr "Acme"),
       ("main_products", JValue.jarr []),
       ("industry", JValue.jstr "")]
      (by decide) (by decide) (by decide) rfl,
   rfl⟩

theorem getCell_cons (kv : String × JValue) (rest : Row) (c : String) :
    getCell (kv :: rest) c = if kv.1 = c then some kv.2 else getCell rest c := by
  by_cases h : kv.1 = c <;> simp [getCell, List.find?_cons, h]

theorem setCell_cons (kv : String × JValue) (rest : Row) (c : String) (v : JValue) :
    setCell (kv :: rest) c v = (if kv.1 = c then (c, v) else kv) :: setCell rest c v := by
  by_cases h : kv.1 = c <;> simp [setCell, h]

theorem getCell_eq_none_of_not_mem {r : Row} {c : String} (h : c ∉ r.map Prod.fst) :
    getCell r c = none := by
  induction r with
  | nil => rfl
  | cons kv rest ih =>
    simp only [List.map_cons, List.mem_cons, not_or] at h
    rw [getCell_cons, if_neg (fun hc => h.1 hc.symm)]
    exact ih h.2

theorem getCell_isSome_of_mem {r : Row} {c : String} (h : c ∈ r.map Prod.fst) :
    ∃ v, getCell r c = some v := by
  induction r with
  | nil => simp at h
  | cons kv rest ih =>
    by_cases hc : kv.1 = c
    · exact ⟨kv.2, by rw [getCell_cons, if_pos hc]⟩
    · simp only [List.map_cons, List.mem_cons] at h
      rcases h with h | h
      · exact absurd h.symm hc
      · obtain ⟨v, hv⟩ := ih h
        exact ⟨v, by rw [getCell_cons, if_neg hc]; exact hv⟩

theorem getCell_setCell_self (r : Row) (c : String) (v : JValue) :
    getCell (setCell r c v) c = (getCell r c).map (fun _ => v) := by
  induction r with
  | nil => rfl
  | cons kv rest ih =>
    obtain ⟨k1, v1⟩ := kv
    by_cases hc : k1 = c
    · subst hc
      simp [setCell_cons, getCell_cons, ih]
    · simp [setCell_cons, getCell_cons, hc, ih]

theorem getCell_setCell_ne (r : Row) {c c' : String} (v : JValue) (h : c' ≠ c) :
    getCell (setCell r c v) c' = getCell r c' := by
  induction r with
  | nil => rfl
  | cons kv rest ih =>
    obtain ⟨k1, v1⟩ := kv
    by_cases hc : k1 = c
    · subst hc
      simp [setCell_cons, getCell_cons, Ne.symm h, ih]
    · by_cases hc' : k1 = c'
      · subst hc'
        simp [setCell_cons, getCell_cons, hc]
      · simp [setCell_cons, getCell_cons, hc, hc', ih]

theorem getCell_append_ne {r : Row} {k c : String} {x : JValue} (h : k ≠ c) :
    getCell (r ++ [(k, x)]) c = getCell r c := by
  induction r with
  | nil =>
    show getCell [(k, x)] c = none
    rw [getCell_cons, if_neg h]
    rfl
  | cons kv rest ih =>
    show getCell (kv :: (rest ++ [(k, x)])) c = _
    rw [getCell_cons, getCell_cons]
    by_cases hc : kv.1 = c
    · rw [if_pos hc, if_pos hc]
    · rw [if_neg hc, if_neg hc]
      exact ih

theorem getCell_append_self {r : Row} {c : String} {x : JValue} (h : c ∉ r.map Prod.fst) :
    getCell (r ++ [(c, x)]) c = some x := by
  induction r with
  | nil =>
    show getCell [(c, x)] c = some x
    rw [getCell_cons, if_pos rfl]
  | cons kv rest ih =>
    simp only [List.map_cons, List.mem_cons, not_or] at h
    show getCell (kv :: (rest ++ [(c, x)])) c = some x
    rw [getCell_cons, if_neg (fun hc => h.1 hc.symm)]
    exact ih h.2

theorem keys_setCell (r : Row) (c : String) (v : JValue) :
    (setCell r c v).map Prod.fst = r.map Prod.fst := by
  induction r with
  | nil => rfl
  | cons kv rest ih =>
    rw [setCell_cons]
    by_cases hc : kv.1 = c
    · simp only [if_pos hc, List.map_cons, ih]
      rw [hc]
    · simp only [if_neg hc, List.map_cons, ih]

theorem length_updateAt {α : Type} (f : α → α) : ∀ (i : Nat) (l : List α),
    (updateAt f i l).length = l.length := by
  intro i l
  induction l generalizing i with
  | nil => cases i <;> rfl
  | cons x xs ih =>
    cases i with
    | zero => simp [updateAt]
    | succ n => simp [updateAt, ih]

theorem get?_updateAt_ne {α : Type} (f : α → α) : ∀ (i j : Nat) (l : List α), j ≠ i →
    (updateAt f i l).get? j = l.get? j := by
  intro i j l
  induction l generalizing i j with
  | nil => intro _; cases i <;> rfl
  | cons x xs ih =>
    intro h
    cases i with
    | zero =>
      cases j with
      | zero => exact absurd rfl h
      | succ m => simp [updateAt]
    | succ n =>
      cases j with
      | zero => simp [updateAt]
      | succ m => simpa [updateAt] using ih n m (fun hc => h (by rw [hc]))

theorem get?_updateAt_self {α : Type} (f : α → α) : ∀ (i : Nat) (l : List α),
    (updateAt f i l).get? i = (l.get? i).map f := by
  intro i l
  induction l generalizing i with
  | nil => cases i <;> rfl
  | cons x xs ih =>
    cases i with
    | zero => simp [updateAt]
    | succ n => simpa [updateAt] using ih n

theorem forall_mem_updateAt {α : Type} {P : α → Prop} (f : α → α) :
    ∀ (i : Nat) (l : List α), (∀ a ∈ l, P a) → (∀ a, P a → P (f a)) →
      ∀ a ∈ updateAt f i l, P a := by
  intro i l
  induction l generalizing i with
  | nil => intro _ _ a ha; cases i <;> simp [updateAt] at ha
  | cons x xs ih =>
    intro hl hf a ha
    cases i with
    | zero =>
      simp only [updateAt, List.mem_cons] at ha
      rcases ha with rfl | ha
      · exact hf x (hl x (by simp))
      · exact hl a (by simp [ha])
    | succ n =>
      simp only [updateAt, List.mem_cons] at ha
      rcases ha with rfl | ha
      · exact hl a (by simp)
      · exact ih n (fun b hb => hl b (by simp [hb])) hf a ha

theorem Table.cols_setAt (t : Table) (i : Nat) (c : String) (v : JValue) :
    (t.setAt i c v).cols = t.cols := rfl

theorem Table.length_setAt (t : Table) (i : Nat) (c : String) (v : JValue) :
    (t.setAt i c v).rows.length = t.rows.length :=
  length_updateAt _ i t.rows

theorem Table.WF_setAt {t : Table} (h : t.WF) (i : Nat) (c : String) (v : JValue) :
    (t.setAt i c v).WF := by
  refine ⟨h.1, ?_⟩
  intro r hr
  exact forall_mem_updateAt (P := fun r => r.map Prod.fst = t.cols) _ i t.rows h.2
    (fun a ha => by show (setCell a c v).map Prod.fst = t.cols; rw [keys_setCell]; exact ha) r hr

theorem Table.cellAt_setAt_ne_row {t : Table} {i j : Nat} (c c' : String) (v : JValue)
    (h : j ≠ i) : (t.setAt i c v).cellAt j c' = t.cellAt j c' := by
  unfold Table.cellAt
  show ((updateAt (fun r => setCell r c v) i t.rows).get? j).bind _ = _
  rw [get?_updateAt_ne _ i j t.rows h]

theorem Table.cellAt_setAt_ne_col {t : Table} (i j : Nat) {c c' : String} (v : JValue)
    (h : c' ≠ c) : (t.setAt i c v).cellAt j c' = t.cellAt j c' := by
  unfold Table.cellAt
  show ((updateAt (fun r => setCell r c v) i t.rows).get? j).bind _ = _
  by_cases hj : j = i
  · subst hj
    rw [get?_updateAt_self]
    cases t.rows.get? j with
    | none => rfl
    | some r =>
      show getCell (setCell r c v) c' = getCell r c'
      exact getCell_setCell_ne r v h
  · rw [get?_updateAt_ne _ i j t.rows hj]

theorem Table.cellAt_setAt_self (t : Table) (i : Nat) (c : String) (v : JValue) :
    (t.setAt i c v).cellAt i c = (t.cellAt i c).map (fun _ => v) := by
  unfold Table.cellAt
  show ((updateAt (fun r => setCell r c v) i t.rows).get? i).bind _ = _
  rw [get?_updateAt_self]
  cases t.rows.get? i with
  | none => rfl
  | some r =>
    show getCell (setCell r c v) c = (getCell r c).map (fun _ => v)
    exact getCell_setCell_self r c v

theorem Table.cellAt_some_of_WF {t : Table} (h : t.WF) {i : Nat} {c : String}
    (hi : i < t.rows.length) (hc : c ∈ t.cols) : ∃ v, t.cellAt i c = some v := by
  obtain ⟨r, hr⟩ : ∃ r, t.rows.get? i = some r :=
    ⟨t.rows.get ⟨i, hi⟩, List.get?_eq_get hi⟩
  have hkeys : r.map Prod.fst = t.cols := h.2 r (List.get?_mem hr)
  obtain ⟨v, hv⟩ := getCell_isSome_of_mem (r := r) (c := c) (by rw [hkeys]; exact hc)
  exact ⟨v, by unfold Table.cellAt; rw [hr]; exact hv⟩

theorem Table.setAt_self_of_WF {t : Table} (h : t.WF) {i : Nat} {c : String} (v : JValue)
    (hi : i < t.rows.length) (hc : c ∈ t.cols) :
    (t.setAt i c v).cellAt i c = some v := by
  obtain ⟨w, hw⟩ := Table.cellAt_some_of_WF h hi hc
  rw [Table.cellAt_setAt_self, hw]
  rfl

theorem Table.cols_addCol (t : Table) (c : String) (v : JValue) :
    (t.addCol c v).cols = t.cols ++ [c] := rfl

theorem Table.length_addCol (t : Table) (c : String) (v : JValue) :
    (t.addCol c v).rows.length = t.rows.length := by
  show (t.rows.map _).length = _
  rw [List.length_map]

theorem Table.WF_addCol {t : Table} (h : t.WF) {c : String} (v : JValue) (hc : c ∉ t.cols) :
    (t.addCol c v).WF := by
  constructor
  · show (t.cols ++ [c]).Nodup
    simp [List.nodup_append, h.1, hc]
  · intro r hr
    show r.map Prod.fst = t.cols ++ [c]
    obtain ⟨r0, hr0, rfl⟩ := List.mem_map.mp hr
    simp [h.2 r0 hr0]

theorem Table.cellAt_addCol_ne (t : Table) (j : Nat) {k c : String} (x : JValue) (h : k ≠ c) :
    (t.addCol k x).cellAt j c = t.cellAt j c := by
  unfold Table.cellAt
  show ((t.rows.map (fun r => r ++ [(k, x)])).get? j).bind _ = _
  rw [List.get?_map]
  cases t.rows.get? j with
  | none => rfl
  | some r =>
    show getCell (r ++ [(k, x)]) c = getCell r c
    exact getCell_append_ne h

theorem Table.cellAt_addCol_self {t : Table} (h : t.WF) {j : Nat} {k : String} (x : JValue)
    (hk : k ∉ t.cols) (hj : j < t.rows.length) :
    (t.addCol k x).cellAt j k = some x := by
  obtain ⟨r, hr⟩ : ∃ r, t.rows.get? j = some r :=
    ⟨t.rows.get ⟨j, hj⟩, List.get?_eq_get hj⟩
  have hkeys : r.map Prod.fst = t.cols := h.2 r (List.get?_mem hr)
  unfold Table.cellAt
  show ((t.rows.map (fun r => r ++ [(k, x)])).get? j).bind _ = _
  rw [List.get?_map, hr]
  show getCell (r ++ [(k, x)]) k = some x
  exact getCell_append_self (by rw [hkeys]; exact hk)

theorem merge_insights_cons (df : Table) (idx : Nat) (kv : String × JValue) (rest : Fields) :
    merge_insights df idx (kv :: rest) =
      merge_insights ((if kv.1 ∈ df.cols then df else df.addCol kv.1 .jnull).setAt idx kv.1 kv.2)
        idx rest := rfl

theorem merge_insights_cols : ∀ (ai : Fields) (df : Table) (idx : Nat),
    ∃ ext, (merge_insights df idx ai).cols = df.cols ++ ext ∧
      ∀ k ∈ ext, k ∈ ai.map Prod.fst := by
  intro ai
  induction ai with
  | nil => exact fun df idx => ⟨[], by simp [merge_insights]⟩
  | cons kv rest ih =>
    intro df idx
    rw [merge_insights_cons]
    by_cases hk : kv.1 ∈ df.cols
    · obtain ⟨ext, hext, hmem⟩ := ih ((if kv.1 ∈ df.cols then df else df.addCol kv.1 .jnull).setAt idx kv.1 kv.2) idx
      refine ⟨ext, ?_, fun k hkk => by simp [hmem k hkk]⟩
      rw [hext]
      simp [Table.cols_setAt, hk]
    · obtain ⟨ext, hext, hmem⟩ := ih ((if kv.1 ∈ df.cols then df else df.addCol kv.1 .jnull).setAt idx kv.1 kv.2) idx
      refine ⟨kv.1 :: ext, ?_, ?_⟩
      · rw [hext]
        simp [Table.cols_setAt, Table.cols_addCol, hk]
      · intro k hkk
        rcases List.mem_cons.mp hkk with rfl | hkk
        · simp
        · simp [hmem k hkk]

theorem merge_insights_length : ∀ (ai : Fields) (df : Table) (idx : Nat),
    (merge_insights df idx ai).rows.length = df.rows.length := by
  intro ai
  induction ai with
  | nil => intro df idx; rfl
  | cons kv rest ih =>
    intro df idx
    rw [merge_insights_cons, ih]
    by_cases hk : kv.1 ∈ df.cols <;>
      simp [Table.length_setAt, Table.length_addCol, hk]

theorem merge_insights_WF : ∀ (ai : Fields) {df : Table} (idx : Nat), df.WF →
    (merge_insights df idx ai).WF := by
  intro ai
  induction ai with
  | nil => intro df idx h; exact h
  | cons kv rest ih =>
    intro df idx h
    rw [merge_insights_cons]
    by_cases hk : kv.1 ∈ df.cols
    · simp only [hk, if_true]
      exact ih idx (Table.WF_setAt h idx kv.1 kv.2)
    · simp only [hk, if_false]
      exact ih idx (Table.WF_setAt (Table.WF_addCol h JValue.jnull hk) idx kv.1 kv.2)

theorem merge_insights_other_col : ∀ (ai : Fields) (df : Table) (idx : Nat) (c : String),
    c ∉ ai.map Prod.fst → ∀ j, (merge_insights df idx ai).cellAt j c = df.cellAt j c := by
  intro ai
  induction ai with
  | nil => intro df idx c _ j; rfl
  | cons kv rest ih =>
    intro df idx c hc j
    simp only [List.map_cons, List.mem_cons, not_or] at hc
    rw [merge_insights_cons, ih _ idx c hc.2 j]
    by_cases hk : kv.1 ∈ df.cols
    · simp only [hk, if_true]
      exact Table.cellAt_setAt_ne_col idx j kv.2 hc.1
    · simp only [hk, if_false]
      rw [Table.cellAt_setAt_ne_col idx j kv.2 hc.1]
      exact Table.cellAt_addCol_ne df j JValue.jnull (fun hq => hc.1 hq.symm)

theorem merge_insights_other_row : ∀ (ai : Fields) (df : Table) (idx : Nat) (j : Nat),
    j ≠ idx → ∀ c ∈ df.cols, (merge_insights df idx ai).cellAt j c = df.cellAt j c := by
  intro ai
  induction ai with
  | nil => intro df idx j _ c _; rfl
  | cons kv rest ih =>
    intro df idx j hj c hcdf
    rw [merge_insights_cons]
    by_cases hk : kv.1 ∈ df.cols
    · simp only [hk, if_true]
      rw [ih _ idx j hj c (by simp [Table.cols_setAt, hcdf])]
      exact Table.cellAt_setAt_ne_row kv.1 c kv.2 hj
    · simp only [hk, if_false]
      rw [ih _ idx j hj c (by simp [Table.cols_setAt, Table.cols_addCol, hcdf])]
      rw [Table.cellAt_setAt_ne_row kv.1 c kv.2 hj]
      exact Table.cellAt_addCol_ne df j JValue.jnull (fun hq => hk (hq ▸ hcdf))

theorem merge_insights_new_null : ∀ (ai : Fields) {df : Table} (idx : Nat), df.WF →
    (ai.map Prod.fst).Nodup → ∀ j, j < df.rows.length → j ≠ idx →
    ∀ kv ∈ ai, kv.1 ∉ df.cols → (merge_insights df idx ai).cellAt j kv.1 = some JValue.jnull := by
  intro ai
  induction ai with
  | nil => intro df idx _ _ j _ _ kv hkv; simp at hkv
  | cons kv0 rest ih =>
    intro df idx hwf hnd j hj hji kv hkv hnotin
    simp only [List.map_cons, List.nodup_cons] at hnd
    rcases List.mem_cons.mp hkv with rfl | hkv
    · rw [merge_insights_cons]
      simp only [hnotin, if_false]
      have hknotin : kv.1 ∉ rest.map Prod.fst := hnd.1
      rw [merge_insights_other_col rest _ idx kv.1 hknotin j]
      rw [Table.cellAt_setAt_ne_row kv.1 kv.1 kv.2 hji]
      exact Table.cellAt_addCol_self hwf JValue.jnull hnotin hj
    · rw [merge_insights_cons]
      have hne : kv.1 ≠ kv0.1 := fun hq => hnd.1 (hq ▸ List.mem_map_of_mem Prod.fst hkv)
      by_cases hk : kv0.1 ∈ df.cols
      · simp only [hk, if_true]
        exact ih idx (Table.WF_setAt hwf idx kv0.1 kv0.2) hnd.2 j
          (by rw [Table.length_setAt]; exact hj) hji kv hkv
          (by rw [Table.cols_setAt]; exact hnotin)
      · simp only [hk, if_false]
        refine ih idx (Table.WF_setAt (Table.WF_addCol hwf JValue.jnull hk) idx kv0.1 kv0.2)
          hnd.2 j ?_ hji kv hkv ?_
        · rw [Table.length_setAt, Table.length_addCol]
          exact hj
        · rw [Table.cols_setAt, Table.cols_addCol]
          simp [hnotin, hne]

theorem merge_insights_own_row : ∀ (ai : Fields) {df : Table} {idx : Nat}, df.WF →
    idx < df.rows.length → (ai.map Prod.fst).Nodup →
    ∀ kv ∈ ai, (merge_insights df idx ai).cellAt idx kv.1 = some kv.2 := by
  intro ai
  induction ai with
  | nil => intro df idx _ _ _ kv hkv; simp at hkv
  | cons kv0 rest ih =>
    intro df idx hwf hidx hnd kv hkv
    simp only [List.map_cons, List.nodup_cons] at hnd
    rcases List.mem_cons.mp hkv with rfl | hkv
    · rw [merge_insights_cons]
      rw [merge_insights_other_col rest _ idx kv.1 hnd.1 idx]
      by_cases hk : kv.1 ∈ df.cols
      · simp only [hk, if_true]
        exact Table.setAt_self_of_WF hwf kv.2 hidx hk
      · simp only [hk, if_false]
        refine Table.setAt_self_of_WF (Table.WF_addCol hwf JValue.jnull hk) kv.2 ?_ ?_
        · rw [Table.length_addCol]
          exact hidx
        · rw [Table.cols_addCol]
          simp
    · rw [merge_insights_cons]
      by_cases hk : kv0.1 ∈ df.cols
      · simp only [hk, if_true]
        exact ih (Table.WF_setAt hwf idx kv0.1 kv0.2)
          (by rw [Table.length_setAt]; exact hidx) hnd.2 kv hkv
      · simp only [hk, if_false]
        exact ih (Table.WF_setAt (Table.WF_addCol hwf JValue.jnull hk) idx kv0.1 kv0.2)
          (by rw [Table.length_setAt, Table.length_addCol]; exact hidx) hnd.2 kv hkv

theorem merge_insights_keys_in_cols : ∀ (ai : Fields) (df : Table) (idx : Nat),
    ∀ kv ∈ ai, kv.1 ∈ (merge_insights df idx ai).cols := by
  intro ai
  induction ai with
  | nil => intro df idx kv hkv; simp at hkv
  | cons kv0 rest ih =>
    intro df idx kv hkv
    rw [merge_insights_cons]
    rcases List.mem_cons.mp hkv with rfl | hkv
    · obtain ⟨ext, hext, -⟩ := merge_insights_cols rest
        ((if kv.1 ∈ df.cols then df else df.addCol kv.1 .jnull).setAt idx kv.1 kv.2) idx
      rw [hext]
      by_cases hk : kv.1 ∈ df.cols
      · simp [Table.cols_setAt, hk]
      · simp [Table.cols_setAt, Table.cols_addCol, hk]
    · exact ih _ idx kv hkv

theorem process_row_cols (fetch : Fetch) (extract : String → String) (chat : Chat)
    (loads : Loads) (wcol : String) (s : BatchState) (p : Nat × Row) :
    ∃ e, (process_row fetch extract chat loads wcol s p).df.cols = s.df.cols ++ e := by
  unfold process_row
  by_cases hs : siteOf p.2 wcol = ""
  · exact ⟨[], by simp [hs, Table.cols_setAt]⟩
  · obtain ⟨ext, hext, -⟩ := merge_insights_cols
      (get_ai_insights chat loads
        (((scrape_go fetch extract (attempts (siteOf p.2 wcol))).1.2).getD (siteOf p.2 wcol))
        (scrape_go fetch extract (attempts (siteOf p.2 wcol))).1.1) s.df p.1
    exact ⟨ext, by simp [hs, Table.cols_setAt, hext]⟩

theorem foldl_process_row_cols (fetch : Fetch) (extract : String → String) (chat : Chat)
    (loads : Loads) (wcol : String) :
    ∀ (L : List (Nat × Row)) (s : BatchState),
      ∃ ext, (L.foldl (process_row fetch extract chat loads wcol) s).df.cols =
        s.df.cols ++ ext := by
  intro L
  induction L with
  | nil => exact fun s => ⟨[], by simp⟩
  | cons p L' ih =>
    intro s
    obtain ⟨e0, he0⟩ := process_row_cols fetch extract chat loads wcol s p
    obtain ⟨ext, hext⟩ := ih (process_row fetch extract chat loads wcol s p)
    exact ⟨e0 ++ ext, by
      show (L'.foldl (process_row fetch extract chat loads wcol)
        (process_row fetch extract chat loads wcol s p)).df.cols = _
      rw [hext, he0, List.append_assoc]⟩

theorem ensure_status_cols (df : Table) :
    ∃ e, (ensure_status df).cols = df.cols ++ e := by
  unfold ensure_status
  by_cases h : "status" ∈ df.cols
  · exact ⟨[], by simp [h]⟩
  · exact ⟨["status"], by simp [h, Table.cols_addCol]⟩

/-- C2: merging insight fields yields a table in which every emitted key
is a column of every row (null-filled in rows where the key was absent),
the merged row carries its values, all other rows and all columns not
emitted are untouched, well-formedness (all rows share the column set) is
preserved, and the column set of a full `process_csv` run only grows, with
the original columns kept as a prefix. -/
theorem C2_column_merge_invariant :
    (∀ (df : Table) (idx : Nat) (ai : Fields), df.WF → idx < df.rows.length →
      (ai.map Prod.fst).Nodup →
      (∃ ext, (merge_insights df idx ai).cols = df.cols ++ ext) ∧
      (merge_insights df idx ai).WF ∧
      (merge_insights df idx ai).rows.length = df.rows.length ∧
      (∀ kv ∈ ai, kv.1 ∈ (merge_insights df idx ai).cols) ∧
      (∀ kv ∈ ai, (merge_insights df idx ai).cellAt idx kv.1 = some kv.2) ∧
      (∀ j, j < df.rows.length → j ≠ idx → ∀ kv ∈ ai, kv.1 ∉ df.cols →
        (merge_insights df idx ai).cellAt j kv.1 = some JValue.jnull) ∧
      (∀ j, j ≠ idx → ∀ c ∈ df.cols, (merge_insights df idx ai).cellAt j c = df.cellAt j c)) ∧
    (∀ (fetch : Fetch) (extract : String → String) (chat : Chat) (loads : Loads)
      (df0 : Table) (wcol : String) (bs : Nat),
      ∃ ext, (process_csv fetch extract chat loads df0 wcol bs).cols = df0.cols ++ ext) := by
  constructor
  · intro df idx ai hwf hidx hnd
    refine ⟨?_, merge_insights_WF ai idx hwf, merge_insights_length ai df idx,
      merge_insights_keys_in_cols ai df idx, merge_insights_own_row ai hwf hidx hnd,
      merge_insights_new_null ai idx hwf hnd, merge_insights_other_row ai df idx⟩
    obtain ⟨ext, hext, -⟩ := merge_insights_cols ai df idx
    exact ⟨ext, hext⟩
  · intro fetch extract chat loads df0 wcol bs
    obtain ⟨e0, he0⟩ := ensure_status_cols df0
    obtain ⟨ext, hext⟩ := foldl_process_row_cols fetch extract chat loads wcol
      (to_process (ensure_status df0) bs)
      { df := ensure_status df0, fetch_calls := 0, model_calls := 0 }
    refine ⟨e0 ++ ext, ?_⟩
    show (Table.cols _) = _
    rw [show (process_csv fetch extract chat loads df0 wcol bs).cols =
      ((to_process (ensure_status df0) bs).foldl (process_row fetch extract chat loads wcol)
        { df := ensure_status df0, fetch_calls := 0, model_calls := 0 }).df.cols from rfl]
    rw [hext]
    show (ensure_status df0).cols ++ ext = _
    rw [he0, List.append_assoc]

/-- C2 witness: the merge invariant evaluated on a concrete table, with
the fully evaluated merged table as the final conjunct. -/
theorem C2_witness :
    Table.WF dfC2 ∧
    (merge_insights dfC2 0 aiC2).cellAt 0 "industry" = some (JValue.jstr "tech") ∧
    (merge_insights dfC2 0 aiC2).cellAt 1 "industry" = some JValue.jnull ∧
    (∃ ext, (merge_insights dfC2 0 aiC2).cols = dfC2.cols ++ ext) ∧
    (∃ ext, (process_csv (fun _ => none) (fun h => h) (fun _ => .exn "e") (fun _ => .error "e")
      dfC2 "website" 50).cols = dfC2.cols ++ ext) ∧
    merge_insights dfC2 0 aiC2 =
      ⟨["website", "status", "industry", "main_products"],
       [[("website", JValue.jstr "a.com"), ("status", JValue.jstr ""),
         ("industry", JValue.jstr "tech"), ("main_products", JValue.jarr [JValue.jstr "x"])],
        [("website", JValue.jstr "b.com"), ("status", JValue.jstr ""),
         ("industry", JValue.jnull), ("main_products", JValue.jnull)]]⟩ :=
  ⟨⟨by decide, by decide⟩,
   (C2_column_merge_invariant.1 dfC2 0 aiC2 ⟨by decide, by decide⟩ (by decide) (by decide)).2.2.2.2.1
     ("industry", JValue.jstr "tech") (List.mem_cons_self _ _),
   (C2_column_merge_invariant.1 dfC2 0 aiC2 ⟨by decide, by decide⟩ (by decide) (by decide)).2.2.2.2.2.1
     1 (by decide) (by decide) ("industry", JValue.jstr "tech") (List.mem_cons_self _ _)
     (by decide),
   (C2_column_merge_invariant.1 dfC2 0 aiC2 ⟨by decide, by decide⟩ (by decide) (by decide)).1,
   C2_column_merge_invariant.2 (fun _ => none) (fun h => h) (fun _ => .exn "e")
     (fun _ => .error "e") dfC2 "website" 50,
   rfl⟩

theorem Table.statusOf_def (t : Table) (i : Nat) : t.statusOf i = t.cellAt i "status" := rfl

theorem siteOf_of_none {r : Row} {wcol : String} (h : getCell r wcol = none) :
    siteOf r wcol = "" := by
  unfold siteOf
  rw [h]
  rfl

theorem status_ne_done_false {v : JValue} (h : status_ne_done v = false) :
    v = .jstr "done" := by
  cases v <;> simp [status_ne_done] at h ⊢
  exact h

theorem to_process_mem {df : Table} {bs : Nat} {p : Nat × Row} (h : p ∈ to_process df bs) :
    df.rows.get? p.1 = some p.2 ∧ not_done p.2 = true := by
  unfold to_process at h
  have h1 := List.mem_of_mem_take h
  have h2 := List.mem_filter.mp h1
  refine ⟨?_, h2.2⟩
  have := List.mem_enum_iff_getElem?.mp h2.1
  rwa [← List.get?_eq_getElem?] at this

theorem to_process_lt {df : Table} {bs : Nat} {p : Nat × Row} (h : p ∈ to_process df bs) :
    p.1 < df.rows.length :=
  (List.get?_eq_some.mp (to_process_mem h).1).choose

theorem to_process_nodup (df : Table) (bs : Nat) :
    ((to_process df bs).map Prod.fst).Nodup := by
  have hsub : (to_process df bs).Sublist df.rows.enum :=
    (List.take_sublist _ _).trans (List.filter_sublist _)
  have hmap : ((to_process df bs).map Prod.fst).Sublist (df.rows.enum.map Prod.fst) :=
    hsub.map Prod.fst
  rw [List.enum_map_fst] at hmap
  exact (List.nodup_range _).sublist hmap

theorem to_process_coverage {df : Table} {bs : Nat} (hbs : df.rows.length ≤ bs) :
    ∀ j, j < df.rows.length →
      (∃ r, (j, r) ∈ to_process df bs ∧ df.rows.get? j = some r) ∨
        df.statusOf j = some (.jstr "done") := by
  intro j hj
  have hget : df.rows.get? j = some (df.rows.get ⟨j, hj⟩) := List.get?_eq_get hj
  have henum : (j, df.rows.get ⟨j, hj⟩) ∈ df.rows.enum := by
    rw [List.mem_enum_iff_getElem?]
    rw [← List.get?_eq_getElem?]
    exact hget
  by_cases hp : not_done (df.rows.get ⟨j, hj⟩) = true
  · left
    refine ⟨df.rows.get ⟨j, hj⟩, ?_, hget⟩
    unfold to_process
    rw [List.take_of_length_le]
    · exact List.mem_filter.mpr ⟨henum, hp⟩
    · calc (df.rows.enum.filter (fun p => not_done p.2)).length
          ≤ df.rows.enum.length := List.length_filter_le _ _
        _ = df.rows.length := List.enum_length
        _ ≤ bs := hbs
  · right
    have hp' : not_done (df.rows.get ⟨j, hj⟩) = false := by
      simpa using hp
    unfold not_done at hp'
    cases hcell : getCell (df.rows.get ⟨j, hj⟩) "status" with
    | none =>
      rw [hcell] at hp'
      simp at hp'
    | some v =>
      rw [hcell] at hp'
      rw [Table.statusOf_def]
      unfold Table.cellAt
      rw [hget]
      show getCell (df.rows.get ⟨j, hj⟩) "status" = some (JValue.jstr "done")
      rw [hcell]
      exact congrArg some (status_ne_done_false hp')

theorem ensure_status_WF {df : Table} (h : df.WF) : (ensure_status df).WF := by
  unfold ensure_status
  by_cases hs : "status" ∈ df.cols
  · simpa [hs] using h
  · simpa [hs] using Table.WF_addCol h (.jstr "") hs

theorem ensure_status_status_mem (df : Table) : "status" ∈ (ensure_status df).cols := by
  unfold ensure_status
  by_cases hs : "status" ∈ df.cols
  · simpa [hs] using hs
  · simp [hs, Table.cols_addCol]

theorem ensure_status_length (df : Table) :
    (ensure_status df).rows.length = df.rows.length := by
  unfold ensure_status
  by_cases hs : "status" ∈ df.cols
  · simp [hs]
  · simp [hs, Table.length_addCol]

theorem ensure_status_of_mem {df : Table} (h : "status" ∈ df.cols) :
    ensure_status df = df := by
  unfold ensure_status
  simp [h]

/-- Operational specification of one batch fold over a selected slice:
statuses of untouched rows are preserved, blank-site rows end `skipped`,
non-blank ones end `done`, the website cells of rows other than the one
being merged are preserved, and a slice of only blank rows issues no
fetch and no model call. -/
theorem foldl_process_row_spec (fetch : Fetch) (extract : String → String) (chat : Chat)
    (loads : Loads) (wcol : String) :
    ∀ (L : List (Nat × Row)) (s : BatchState),
      s.df.WF → "status" ∈ s.df.cols →
      (wcol ∈ s.df.cols ∨ ∀ p ∈ L, siteOf p.2 wcol = "") →
      (L.map Prod.fst).Nodup →
      (∀ p ∈ L, p.1 < s.df.rows.length) →
      (∀ p ∈ L, getCell p.2 wcol = s.df.cellAt p.1 wcol) →
      (L.foldl (process_row fetch extract chat loads wcol) s).df.WF ∧
      (L.foldl (process_row fetch extract chat loads wcol) s).df.rows.length =
        s.df.rows.length ∧
      "status" ∈ (L.foldl (process_row fetch extract chat loads wcol) s).df.cols ∧
      (∀ j, j ∉ L.map Prod.fst →
        (L.foldl (process_row fetch extract chat loads wcol) s).df.statusOf j =
          s.df.statusOf j) ∧
      (∀ j, j ∉ L.map Prod.fst →
        (L.foldl (process_row fetch extract chat loads wcol) s).df.cellAt j wcol =
          s.df.cellAt j wcol) ∧
      (∀ p ∈ L, siteOf p.2 wcol = "" →
        (L.foldl (process_row fetch extract chat loads wcol) s).df.statusOf p.1 =
          some (.jstr "skipped")) ∧
      (∀ p ∈ L, siteOf p.2 wcol ≠ "" →
        (L.foldl (process_row fetch extract chat loads wcol) s).df.statusOf p.1 =
          some (.jstr "done")) ∧
      (wcol ≠ "status" → ∀ p ∈ L, siteOf p.2 wcol = "" →
        (L.foldl (process_row fetch extract chat loads wcol) s).df.cellAt p.1 wcol =
          getCell p.2 wcol) ∧
      ((∀ p ∈ L, siteOf p.2 wcol = "") →
        (L.foldl (process_row fetch extract chat loads wcol) s).fetch_calls = s.fetch_calls ∧
        (L.foldl (process_row fetch extract chat loads wcol) s).model_calls = s.model_calls) := by
  intro L
  induction L with
  | nil =>
    intro s hwf hstat _ _ _ _
    exact ⟨hwf, rfl, hstat, fun _ _ => rfl, fun _ _ => rfl, fun p hp => absurd hp (by simp),
      fun p hp => absurd hp (by simp), fun _ p hp => absurd hp (by simp),
      fun _ => ⟨rfl, rfl⟩⟩
  | cons p0 L' ih =>
    obtain ⟨i, r⟩ := p0
    intro s hwf hstat hw hnd hlt hsnap
    simp only [List.map_cons, List.nodup_cons] at hnd
    have hlt0 : i < s.df.rows.length := hlt (i, r) (List.mem_cons_self _ _)
    have hsnap0 : getCell r wcol = s.df.cellAt i wcol := hsnap (i, r) (List.mem_cons_self _ _)
    rw [List.foldl_cons]
    by_cases hb : siteOf r wcol = ""
    · -- blank identifier: the row is marked skipped, nothing else changes
      have hs1 : process_row fetch extract chat loads wcol s (i, r) =
          { df := s.df.setAt i "status" (.jstr "skipped"),
            fetch_calls := s.fetch_calls, model_calls := s.model_calls } := by
        simp [process_row, hb]
      rw [hs1]
      have hwf1 : (s.df.setAt i "status" (.jstr "skipped")).WF := Table.WF_setAt hwf _ _ _
      have hcols1 : (s.df.setAt i "status" (.jstr "skipped")).cols = s.df.cols :=
        Table.cols_setAt _ _ _ _
      have hlen1 : (s.df.setAt i "status" (.jstr "skipped")).rows.length =
          s.df.rows.length := Table.length_setAt _ _ _ _
      obtain ⟨c1, c2, c3, c4, c5, c6, c7, c8, c9⟩ := ih
        { df := s.df.setAt i "status" (.jstr "skipped"),
          fetch_calls := s.fetch_calls, model_calls := s.model_calls }
        hwf1 (by rw [hcols1]; exact hstat)
        (by
          rcases hw with hw | hw
          · left; rw [hcols1]; exact hw
          · right; exact fun p hp => hw p (by simp [hp]))
        hnd.2
        (fun p hp => by rw [hlen1]; exact hlt p (by simp [hp]))
        (fun p hp => by
          have hpi : p.1 ≠ i := fun hq => hnd.1 (hq ▸ List.mem_map_of_mem Prod.fst hp)
          rw [Table.cellAt_setAt_ne_row _ _ _ hpi]
          exact hsnap p (by simp [hp]))
      refine ⟨c1, by rw [c2, hlen1], c3, ?_, ?_, ?_, ?_, ?_, ?_⟩
      · intro j hj
        simp only [List.map_cons, List.mem_cons, not_or] at hj
        rw [c4 j hj.2, Table.statusOf_def, Table.statusOf_def,
          Table.cellAt_setAt_ne_row _ _ _ hj.1]
      · intro j hj
        simp only [List.map_cons, List.mem_cons, not_or] at hj
        rw [c5 j hj.2, Table.cellAt_setAt_ne_row _ _ _ hj.1]
      · intro p hp hpb
        rcases List.mem_cons.mp hp with hp | hp
        · rw [hp]
          rw [c4 i hnd.1, Table.statusOf_def]
          exact Table.setAt_self_of_WF hwf _ hlt0 hstat
        · exact c6 p hp hpb
      · intro p hp hne
        rcases List.mem_cons.mp hp with hp | hp
        · rw [hp] at hne
          exact absurd hb hne
        · exact c7 p hp hne
      · intro hwc p hp hpb
        rcases List.mem_cons.mp hp with hp | hp
        · rw [hp]
          rw [c5 i hnd.1, Table.cellAt_setAt_ne_col _ _ _ hwc, hsnap0]
        · exact c8 hwc p hp hpb
      · intro hall
        exact c9 (fun p hp => hall p (by simp [hp]))
    · -- non-blank identifier: scrape, request insights, merge, mark done
      have hwcol : wcol ∈ s.df.cols := by
        rcases hw with hw | hw
        · exact hw
        · exact absurd (hw (i, r) (List.mem_cons_self _ _)) hb
      have hs1 : process_row fetch extract chat loads wcol s (i, r) =
          { df := (merge_insights s.df i
              (get_ai_insights chat loads
                (((scrape_go fetch extract (attempts (siteOf r wcol))).1.2).getD (siteOf r wcol))
                (scrape_go fetch extract (attempts (siteOf r wcol))).1.1)).setAt i "status"
                  (.jstr "done"),
            fetch_calls := s.fetch_calls +
              (scrape_go fetch extract (attempts (siteOf r wcol))).2.length,
            model_calls := s.model_calls + 1 } := by
        simp [process_row, hb]
      rw [hs1]
      obtain ⟨mext, hmext, -⟩ := merge_insights_cols
        (get_ai_insights chat loads
          (((scrape_go fetch extract (attempts (siteOf r wcol))).1.2).getD (siteOf r wcol))
          (scrape_go fetch extract (attempts (siteOf r wcol))).1.1) s.df i
      have hwfM := merge_insights_WF
        (get_ai_insights chat loads
          (((scrape_go fetch extract (attempts (siteOf r wcol))).1.2).getD (siteOf r wcol))
          (scrape_go fetch extract (attempts (siteOf r wcol))).1.1) i hwf
      have hlenM := merge_insights_length
        (get_ai_insights chat loads
          (((scrape_go fetch extract (attempts (siteOf r wcol))).1.2).getD (siteOf r wcol))
          (scrape_go fetch extract (attempts (siteOf r wcol))).1.1) s.df i
      have hwf1 := Table.WF_setAt hwfM i "status" (.jstr "done")
      have hcols1 : ((merge_insights s.df i
          (get_ai_insights chat loads
            (((scrape_go fetch extract (attempts (siteOf r wcol))).1.2).getD (siteOf r wcol))
            (scrape_go fetch extract (attempts (siteOf r wcol))).1.1)).setAt i "status"
              (.jstr "done")).cols = s.df.cols ++ mext := by
        rw [Table.cols_setAt, hmext]
      have hlen1 : ((merge_insights s.df i
          (get_ai_insights chat loads
            (((scrape_go fetch extract (attempts (siteOf r wcol))).1.2).getD (siteOf r wcol))
            (scrape_go fetch extract (attempts (siteOf r wcol))).1.1)).setAt i "status"
              (.jstr "done")).rows.length = s.df.rows.length := by
        rw [Table.length_setAt, hlenM]
      have hpres : ∀ j, j ≠ i → ∀ c ∈ s.df.cols,
          ((merge_insights s.df i
            (get_ai_insights chat loads
              (((scrape_go fetch extract (attempts (siteOf r wcol))).1.2).getD (siteOf r wcol))
              (scrape_go fetch extract (attempts (siteOf r wcol))).1.1)).setAt i "status"
                (.jstr "done")).cellAt j c = s.df.cellAt j c := by
        intro j hj c hc
        rw [Table.cellAt_setAt_ne_row _ _ _ hj]
        exact merge_insights_other_row _ s.df i j hj c hc
      obtain ⟨c1, c2, c3, c4, c5, c6, c7, c8, c9⟩ := ih
        { df := (merge_insights s.df i
            (get_ai_insights chat loads
              (((scrape_go fetch extract (attempts (siteOf r wcol))).1.2).getD (siteOf r wcol))
              (scrape_go fetch extract (attempts (siteOf r wcol))).1.1)).setAt i "status"
                (.jstr "done"),
          fetch_calls := s.fetch_calls +
            (scrape_go fetch extract (attempts (siteOf r wcol))).2.length,
          model_calls := s.model_calls + 1 }
        hwf1 (by rw [hcols1]; exact List.mem_append_left _ hstat)
        (by left; rw [hcols1]; exact List.mem_append_left _ hwcol)
        hnd.2
        (fun p hp => by rw [hlen1]; exact hlt p (by simp [hp]))
        (fun p hp => by
          have hpi : p.1 ≠ i := fun hq => hnd.1 (hq ▸ List.mem_map_of_mem Prod.fst hp)
          rw [hpres p.1 hpi wcol hwcol]
          exact hsnap p (by simp [hp]))
      refine ⟨c1, by rw [c2, hlen1], c3, ?_, ?_, ?_, ?_, ?_, ?_⟩
      · intro j hj
        simp only [List.map_cons, List.mem_cons, not_or] at hj
        rw [c4 j hj.2, Table.statusOf_def, Table.statusOf_def, hpres j hj.1 "status" hstat]
      · intro j hj
        simp only [List.map_cons, List.mem_cons, not_or] at hj
        rw [c5 j hj.2, hpres j hj.1 wcol hwcol]
      · intro p hp hpb
        rcases List.mem_cons.mp hp with hp | hp
        · rw [hp] at hpb
          exact absurd hpb hb
        · exact c6 p hp hpb
      · intro p hp hne
        rcases List.mem_cons.mp hp with hp | hp
        · rw [hp]
          rw [c4 i hnd.1, Table.statusOf_def]
          refine Table.setAt_self_of_WF hwfM _ ?_ ?_
          · rw [hlenM]
            exact hlt0
          · rw [hmext]
            exact List.mem_append_left _ hstat
        · exact c7 p hp hne
      · intro hwc p hp hpb
        rcases List.mem_cons.mp hp with hp | hp
        · rw [hp] at hpb
          exact absurd hpb hb
        · exact c8 hwc p hp hpb
      · intro hall
        exact absurd (hall (i, r) (List.mem_cons_self _ _)) hb

theorem cellAt_of_get? {t : Table} {i : Nat} {r : Row} (h : t.rows.get? i = some r)
    (c : String) : t.cellAt i c = getCell r c := by
  unfold Table.cellAt
  rw [h]
  rfl

theorem not_done_of_status {r : Row} {i : Nat} {t : Table} (hget : t.rows.get? i = some r)
    (hdone : t.statusOf i = some (.jstr "done")) : not_done r = false := by
  rw [Table.statusOf_def, cellAt_of_get? hget] at hdone
  unfold not_done
  rw [hdone]
  simp [status_ne_done]

/-- Hypotheses of the fold specification, established for the selection
snapshot of an arbitrary well-formed table. -/
theorem fold_hyps_of_to_process {te : Table} (hwf : te.WF) (wcol : String) (bs : Nat) :
    (wcol ∈ te.cols ∨ ∀ p ∈ to_process te bs, siteOf p.2 wcol = "") ∧
    ((to_process te bs).map Prod.fst).Nodup ∧
    (∀ p ∈ to_process te bs, p.1 < te.rows.length) ∧
    (∀ p ∈ to_process te bs, getCell p.2 wcol = te.cellAt p.1 wcol) := by
  refine ⟨?_, to_process_nodup te bs, fun p hp => to_process_lt hp,
    fun p hp => (cellAt_of_get? (to_process_mem hp).1 wcol).symm⟩
  by_cases hwc : wcol ∈ te.cols
  · exact Or.inl hwc
  · right
    intro p hp
    have hget := (to_process_mem hp).1
    have hkeys : p.2.map Prod.fst = te.cols := hwf.2 p.2 (List.get?_mem hget)
    exact siteOf_of_none (getCell_eq_none_of_not_mem (by rw [hkeys]; exact hwc))

/-- One full-coverage run: afterwards every row is `done` or `skipped`,
and (when the website column is not the status column itself) a `skipped`
row still reads a blank website. -/
theorem process_csv_coverage (fetch : Fetch) (extract : String → String) (chat : Chat)
    (loads : Loads) (df0 : Table) (wcol : String) (bs : Nat)
    (hwf : df0.WF) (hbs : df0.rows.length ≤ bs) :
    (process_csv fetch extract chat loads df0 wcol bs).WF ∧
    (process_csv fetch extract chat loads df0 wcol bs).rows.length = df0.rows.length ∧
    "status" ∈ (process_csv fetch extract chat loads df0 wcol bs).cols ∧
    ∀ i, i < (process_csv fetch extract chat loads df0 wcol bs).rows.length →
      (process_csv fetch extract chat loads df0 wcol bs).statusOf i = some (.jstr "done") ∨
      ((process_csv fetch extract chat loads df0 wcol bs).statusOf i = some (.jstr "skipped") ∧
        (wcol ≠ "status" →
          (process_csv fetch extract chat loads df0 wcol bs).siteAt i wcol = "")) := by
  obtain ⟨hw, hnd, hlt, hsnap⟩ := fold_hyps_of_to_process (ensure_status_WF hwf) wcol bs
  obtain ⟨c1, c2, c3, c4, c5, c6, c7, c8, c9⟩ :=
    foldl_process_row_spec fetch extract chat loads wcol
      (to_process (ensure_status df0) bs)
      { df := ensure_status df0, fetch_calls := 0, model_calls := 0 }
      (ensure_status_WF hwf) (ensure_status_status_mem df0) hw hnd hlt hsnap
  have hT : process_csv fetch extract chat loads df0 wcol bs =
      ((to_process (ensure_status df0) bs).foldl
        (process_row fetch extract chat loads wcol)
        { df := ensure_status df0, fetch_calls := 0, model_calls := 0 }).df := rfl
  have hlen : (process_csv fetch extract chat loads df0 wcol bs).rows.length =
      df0.rows.length := by
    rw [hT, c2]
    exact ensure_status_length df0
  refine ⟨by rw [hT]; exact c1, hlen, by rw [hT]; exact c3, ?_⟩
  intro i hi
  rw [hlen] at hi
  have hbs' : (ensure_status df0).rows.length ≤ bs := by
    rw [ensure_status_length]
    exact hbs
  rcases to_process_coverage hbs' i (by rw [ensure_status_length]; exact hi) with
    ⟨r, hmem, hget⟩ | hdone
  · by_cases hb : siteOf r wcol = ""
    · right
      refine ⟨by rw [hT]; exact c6 (i, r) hmem hb, ?_⟩
      intro hwc
      have hcell := c8 hwc (i, r) hmem hb
      show pyStrip (pyStr (((process_csv fetch extract chat loads df0 wcol bs).cellAt
        i wcol).getD (.jstr ""))) = ""
      rw [hT, hcell]
      show siteOf r wcol = ""
      exact hb
    · left
      rw [hT]
      exact c7 (i, r) hmem hb
  · left
    have hnotin : i ∉ (to_process (ensure_status df0) bs).map Prod.fst := by
      intro hin
      obtain ⟨p, hp, hp1⟩ := List.mem_map.mp hin
      have hgetp := (to_process_mem hp).1
      rw [hp1] at hgetp
      have hr : p.2 = (ensure_status df0).rows.get
          ⟨i, by rw [ensure_status_length]; exact hi⟩ := by
        have := List.get?_eq_get (l := (ensure_status df0).rows)
          (show i < (ensure_status df0).rows.length by rw [ensure_status_length]; exact hi)
        rw [this] at hgetp
        exact (Option.some.inj hgetp).symm
      have hnd' := not_done_of_status (t := ensure_status df0) (i := i)
        (r := p.2) (by rw [hr]; exact List.get?_eq_get _) hdone
      have := (to_process_mem hp).2
      rw [this] at hnd'
      exact Bool.noConfusion hnd'
    rw [hT, c4 i hnotin]
    exact hdone

/-- When every row is already `done` or `skipped`, a new selection picks
exactly rows whose status reads `skipped`. -/
theorem to_process_all_skipped {T : Table} {wcol : String} (bs : Nat)
    (hstat : "status" ∈ T.cols)
    (hrows : ∀ i, i < T.rows.length →
      T.statusOf i = some (.jstr "done") ∨
      (T.statusOf i = some (.jstr "skipped") ∧ (wcol ≠ "status" → T.siteAt i wcol = ""))) :
    ∀ p ∈ to_process (ensure_status T) bs,
      getCell p.2 "status" = some (.jstr "skipped") ∧
      (wcol ≠ "status" → siteOf p.2 wcol = "") := by
  intro p hp
  rw [ensure_status_of_mem hstat] at hp
  have hget := (to_process_mem hp).1
  have hnd := (to_process_mem hp).2
  have hi : p.1 < T.rows.length := to_process_lt hp
  rcases hrows p.1 hi with hdone | ⟨hskip, hblank⟩
  · exact absurd ((not_done_of_status hget hdone) ▸ hnd) (by simp)
  · constructor
    · rw [Table.statusOf_def, cellAt_of_get? hget] at hskip
      exact hskip
    · intro hwc
      have := hblank hwc
      unfold Table.siteAt at this
      rw [cellAt_of_get? hget] at this
      exact this

/-- A run over a table whose pending rows all read a blank website issues
no fetch and no model call (the `done` filter plus the blank check are
conservative across reruns). -/
theorem process_csv_run_idle (fetch : Fetch) (extract : String → String) (chat : Chat)
    (loads : Loads) {T : Table} (wcol : String) (bs : Nat)
    (hwf : T.WF) (hstat : "status" ∈ T.cols)
    (hall : ∀ p ∈ to_process (ensure_status T) bs, siteOf p.2 wcol = "") :
    (process_csv_run fetch extract chat loads T wcol bs).fetch_calls = 0 ∧
    (process_csv_run fetch extract chat loads T wcol bs).model_calls = 0 := by
  obtain ⟨hw, hnd, hlt, hsnap⟩ := fold_hyps_of_to_process (ensure_status_WF hwf) wcol bs
  obtain ⟨-, -, -, -, -, -, -, -, c9⟩ :=
    foldl_process_row_spec fetch extract chat loads wcol
      (to_process (ensure_status T) bs)
      { df := ensure_status T, fetch_calls := 0, model_calls := 0 }
      (ensure_status_WF hwf) (ensure_status_status_mem T) hw hnd hlt hsnap
  exact c9 hall

/-- When every row is `done`, nothing is selected. -/
theorem to_process_all_done {T : Table} (bs : Nat) (hstat : "status" ∈ T.cols)
    (hdone : ∀ i, i < T.rows.length → T.statusOf i = some (.jstr "done")) :
    to_process (ensure_status T) bs = [] := by
  rw [ensure_status_of_mem hstat]
  unfold to_process
  rw [List.filter_eq_nil_iff.mpr, List.take_nil]
  intro p hp
  have hget : T.rows.get? p.1 = some p.2 := by
    have := List.mem_enum_iff_getElem?.mp hp
    rwa [← List.get?_eq_getElem?] at this
  have hi : p.1 < T.rows.length := (List.get?_eq_some.mp hget).choose
  rw [not_done_of_status hget (hdone p.1 hi)]
  simp

/-- A row whose status already reads `done` is never selected. -/
theorem notin_to_process_of_done {te : Table} (bs : Nat) {i : Nat} (hi : i < te.rows.length)
    (hdone : te.statusOf i = some (.jstr "done")) :
    i ∉ (to_process te bs).map Prod.fst := by
  intro hin
  obtain ⟨p, hp, hp1⟩ := List.mem_map.mp hin
  have hgetp := (to_process_mem hp).1
  rw [hp1] at hgetp
  have hnd' := not_done_of_status hgetp hdone
  have := (to_process_mem hp).2
  rw [this] at hnd'
  exact Bool.noConfusion hnd'

/-- With the website column equal to the status column, a rerun over a
table whose pending rows all read `skipped` finishes every row `done`
(the status cell `skipped` is a non-blank site). -/
theorem process_csv_statuscol_all_done (fetch : Fetch) (extract : String → String)
    (chat : Chat) (loads : Loads) {T : Table} (bs : Nat)
    (hwf : T.WF) (hstat : "status" ∈ T.cols) (hbs : T.rows.length ≤ bs)
    (hsel : ∀ p ∈ to_process (ensure_status T) bs,
      getCell p.2 "status" = some (.jstr "skipped")) :
    ∀ i, i < (process_csv fetch extract chat loads T "status" bs).rows.length →
      (process_csv fetch extract chat loads T "status" bs).statusOf i =
        some (.jstr "done") := by
  obtain ⟨hw, hnd, hlt, hsnap⟩ := fold_hyps_of_to_process (ensure_status_WF hwf) "status" bs
  obtain ⟨c1, c2, c3, c4, c5, c6, c7, c8, c9⟩ :=
    foldl_process_row_spec fetch extract chat loads "status"
      (to_process (ensure_status T) bs)
      { df := ensure_status T, fetch_calls := 0, model_calls := 0 }
      (ensure_status_WF hwf) (ensure_status_status_mem T) hw hnd hlt hsnap
  have hT : process_csv fetch extract chat loads T "status" bs =
      ((to_process (ensure_status T) bs).foldl
        (process_row fetch extract chat loads "status")
        { df := ensure_status T, fetch_calls := 0, model_calls := 0 }).df := rfl
  intro i hi
  rw [hT, c2, ensure_status_length] at hi
  have hbs' : (ensure_status T).rows.length ≤ bs := by
    rw [ensure_status_length]
    exact hbs
  rcases to_process_coverage hbs' i (by rw [ensure_status_length]; exact hi) with
    ⟨r, hmem, hget⟩ | hdone
  · have hskip := hsel (i, r) hmem
    have hsite : siteOf r "status" = "skipped" := by
      unfold siteOf
      rw [hskip]
      rfl
    rw [hT]
    exact c7 (i, r) hmem (by rw [hsite]; decide)
  · have hnotin := notin_to_process_of_done bs
      (by rw [ensure_status_length]; exact hi) hdone
    rw [hT, c4 i hnotin]
    exact hdone

/-- C1 (amended): a batch selects at most `batch_size` rows (those whose
status is not `done`, in table order); after running the batch twice with
`batch_size` at least the row count every row's status is `done` or
`skipped`; a third run selects only rows whose status reads `skipped`
(zero rows when none was skipped) and performs zero fetch and zero model
calls.  The original "selects zero rows" is refuted by any table keeping a
`skipped` row: `skipped` is not `done`, so such rows are re-selected
forever, though they never trigger a call. -/
theorem C1_batch_done_filter_idempotence (fetch : Fetch) (extract : String → String)
    (chat : Chat) (loads : Loads) (df0 : Table) (wcol : String) (bs : Nat)
    (hwf : df0.WF) (hbs : df0.rows.length ≤ bs) :
    (∀ t : Table, (to_process t bs).length ≤ bs) ∧
    (∀ i, i < (process_csv fetch extract chat loads
        (process_csv fetch extract chat loads df0 wcol bs) wcol bs).rows.length →
      (process_csv fetch extract chat loads
        (process_csv fetch extract chat loads df0 wcol bs) wcol bs).statusOf i =
          some (.jstr "done") ∨
      (process_csv fetch extract chat loads
        (process_csv fetch extract chat loads df0 wcol bs) wcol bs).statusOf i =
          some (.jstr "skipped")) ∧
    (∀ p ∈ to_process (ensure_status (process_csv fetch extract chat loads
        (process_csv fetch extract chat loads df0 wcol bs) wcol bs)) bs,
      getCell p.2 "status" = some (.jstr "skipped")) ∧
    (process_csv_run fetch extract chat loads (process_csv fetch extract chat loads
        (process_csv fetch extract chat loads df0 wcol bs) wcol bs) wcol bs).fetch_calls = 0 ∧
    (process_csv_run fetch extract chat loads (process_csv fetch extract chat loads
        (process_csv fetch extract chat loads df0 wcol bs) wcol bs) wcol bs).model_calls = 0 := by
  obtain ⟨hwf1, hlen1, hstat1, hrows1⟩ :=
    process_csv_coverage fetch extract chat loads df0 wcol bs hwf hbs
  have hbs1 : (process_csv fetch extract chat loads df0 wcol bs).rows.length ≤ bs := by
    rw [hlen1]
    exact hbs
  obtain ⟨hwf2, hlen2, hstat2, hrows2⟩ :=
    process_csv_coverage fetch extract chat loads
      (process_csv fetch extract chat loads df0 wcol bs) wcol bs hwf1 hbs1
  refine ⟨fun t => by simp [to_process], ?_, ?_⟩
  · intro i hi
    rcases hrows2 i hi with h | ⟨h, -⟩
    · exact Or.inl h
    · exact Or.inr h
  · by_cases hwc : wcol = "status"
    · subst hwc
      have hsel1 : ∀ p ∈ to_process (ensure_status
          (process_csv fetch extract chat loads df0 "status" bs)) bs,
          getCell p.2 "status" = some (.jstr "skipped") :=
        fun p hp => (to_process_all_skipped bs hstat1 hrows1 p hp).1
      have halldone := process_csv_statuscol_all_done fetch extract chat loads bs
        hwf1 hstat1 hbs1 hsel1
      have hempty := to_process_all_done bs hstat2 halldone
      refine ⟨?_, ?_, ?_⟩
      · rw [hempty]
        intro p hp
        simp at hp
      · show (process_csv_run fetch extract chat loads _ "status" bs).fetch_calls = 0
        unfold process_csv_run
        simp only [hempty, List.foldl_nil]
      · show (process_csv_run fetch extract chat loads _ "status" bs).model_calls = 0
        unfold process_csv_run
        simp only [hempty, List.foldl_nil]
    · have hskip2 := to_process_all_skipped bs hstat2 hrows2
      obtain ⟨hf, hm⟩ := process_csv_run_idle fetch extract chat loads wcol bs hwf2 hstat2
        (fun p hp => (hskip2 p hp).2 hwc)
      exact ⟨fun p hp => (hskip2 p hp).1, hf, hm⟩

/-- C1 counterexample: on a table with one blank-website row, the first
two runs leave the row `skipped`; the third run still selects that row
(one row, not zero, since `skipped` is not `done`) — though it performs
zero fetch and zero model calls. -/
theorem C1_counterexample :
    (to_process (ensure_status (process_csv (fun _ => none) (fun h => h) (fun _ => .exn "E")
      (fun _ => .error "E") (process_csv (fun _ => none) (fun h => h) (fun _ => .exn "E")
        (fun _ => .error "E") dfC1cx "website" 50) "website" 50)) 50).length = 1 ∧
    (to_process (ensure_status (process_csv (fun _ => none) (fun h => h) (fun _ => .exn "E")
      (fun _ => .error "E") (process_csv (fun _ => none) (fun h => h) (fun _ => .exn "E")
        (fun _ => .error "E") dfC1cx "website" 50) "website" 50)) 50).length ≠ 0 ∧
    (process_csv_run (fun _ => none) (fun h => h) (fun _ => .exn "E") (fun _ => .error "E")
      (process_csv (fun _ => none) (fun h => h) (fun _ => .exn "E") (fun _ => .error "E")
        (process_csv (fun _ => none) (fun h => h) (fun _ => .exn "E") (fun _ => .error "E")
          dfC1cx "website" 50) "website" 50) "website" 50).fetch_calls = 0 ∧
    (process_csv_run (fun _ => none) (fun h => h) (fun _ => .exn "E") (fun _ => .error "E")
      (process_csv (fun _ => none) (fun h => h) (fun _ => .exn "E") (fun _ => .error "E")
        (process_csv (fun _ => none) (fun h => h) (fun _ => .exn "E") (fun _ => .error "E")
          dfC1cx "website" 50) "website" 50) "website" 50).model_calls = 0 :=
  ⟨rfl, by decide, rfl, rfl⟩

/-- C1 witness: the amended statement applied to a concrete two-row table
(one blank row, one failing site). -/
theorem C1_witness :
    Table.WF dfC1 ∧ dfC1.rows.length ≤ 50 ∧
    (∀ p ∈ to_process (ensure_status (process_csv (fun _ => none) (fun h => h)
        (fun _ => .exn "E") (fun _ => .error "E")
        (process_csv (fun _ => none) (fun h => h) (fun _ => .exn "E") (fun _ => .error "E")
          dfC1 "website" 50) "website" 50)) 50,
      getCell p.2 "status" = some (.jstr "skipped")) ∧
    (process_csv_run (fun _ => none) (fun h => h) (fun _ => .exn "E") (fun _ => .error "E")
      (process_csv (fun _ => none) (fun h => h) (fun _ => .exn "E") (fun _ => .error "E")
        (process_csv (fun _ => none) (fun h => h) (fun _ => .exn "E") (fun _ => .error "E")
          dfC1 "website" 50) "website" 50) "website" 50).fetch_calls = 0 ∧
    (process_csv_run (fun _ => none) (fun h => h) (fun _ => .exn "E") (fun _ => .error "E")
      (process_csv (fun _ => none) (fun h => h) (fun _ => .exn "E") (fun _ => .error "E")
        (process_csv (fun _ => none) (fun h => h) (fun _ => .exn "E") (fun _ => .error "E")
          dfC1 "website" 50) "website" 50) "website" 50).model_calls = 0 :=
  ⟨⟨by decide, by decide⟩, by decide,
   (C1_batch_done_filter_idempotence (fun _ => none) (fun h => h) (fun _ => .exn "E")
     (fun _ => .error "E") dfC1 "website" 50 ⟨by decide, by decide⟩ (by decide)).2.2.1,
   (C1_batch_done_filter_idempotence (fun _ => none) (fun h => h) (fun _ => .exn "E")
     (fun _ => .error "E") dfC1 "website" 50 ⟨by decide, by decide⟩ (by decide)).2.2.2.1,
   (C1_batch_done_filter_idempotence (fun _ => none) (fun h => h) (fun _ => .exn "E")
     (fun _ => .error "E") dfC1 "website" 50 ⟨by decide, by decide⟩ (by decide)).2.2.2.2⟩

/-- C7: a selected row whose website cell is blank or absent is marked
`skipped` in the returned table, and its processing step changes the table
only by that status write: the column set is unchanged (the row
contributes no new columns) and no fetch or model call is counted. -/
theorem C7_blank_identifier_skipped (fetch : Fetch) (extract : String → String) (chat : Chat)
    (loads : Loads) (df0 : Table) (wcol : String) (bs k i : Nat) (r : Row)
    (hwf : df0.WF)
    (hsel : (to_process (ensure_status df0) bs).get? k = some (i, r))
    (hblank : siteOf r wcol = "") :
    (process_csv fetch extract chat loads df0 wcol bs).statusOf i = some (.jstr "skipped") ∧
    (∀ st : BatchState, process_row fetch extract chat loads wcol st (i, r) =
      { df := st.df.setAt i "status" (.jstr "skipped"),
        fetch_calls := st.fetch_calls, model_calls := st.model_calls }) ∧
    (∀ st : BatchState,
      (process_row fetch extract chat loads wcol st (i, r)).df.cols = st.df.cols) := by
  have hmem : (i, r) ∈ to_process (ensure_status df0) bs := List.get?_mem hsel
  obtain ⟨hw, hnd, hlt, hsnap⟩ := fold_hyps_of_to_process (ensure_status_WF hwf) wcol bs
  obtain ⟨-, -, -, -, -, c6, -, -, -⟩ :=
    foldl_process_row_spec fetch extract chat loads wcol
      (to_process (ensure_status df0) bs)
      { df := ensure_status df0, fetch_calls := 0, model_calls := 0 }
      (ensure_status_WF hwf) (ensure_status_status_mem df0) hw hnd hlt hsnap
  have hstep : ∀ st : BatchState, process_row fetch extract chat loads wcol st (i, r) =
      { df := st.df.setAt i "status" (.jstr "skipped"),
        fetch_calls := st.fetch_calls, model_calls := st.model_calls } := by
    intro st
    simp [process_row, hblank]
  exact ⟨c6 (i, r) hmem hblank, hstep,
    fun st => by rw [hstep st]; exact Table.cols_setAt _ _ _ _⟩

/-- C7 witness: the blank first row of a concrete table is selected at
position 0 and ends skipped; its step only writes the status. -/
theorem C7_witness :
    Table.WF dfC7 ∧
    (to_process (ensure_status dfC7) 50).get? 0 =
      some (0, [("website", JValue.jstr "  "), ("status", JValue.jstr "")]) ∧
    siteOf [("website", JValue.jstr "  "), ("status", JValue.jstr "")] "website" = "" ∧
    (process_csv (fun _ => none) (fun h => h) (fun _ => .exn "E") (fun _ => .error "E")
      dfC7 "website" 50).statusOf 0 = some (.jstr "skipped") ∧
    (∀ st : BatchState,
      (process_row (fun _ => none) (fun h => h) (fun _ => .exn "E") (fun _ => .error "E")
        "website" st (0, [("website", JValue.jstr "  "), ("status", JValue.jstr "")])).df.cols =
        st.df.cols) :=
  ⟨⟨by decide, by decide⟩, rfl, by decide,
   (C7_blank_identifier_skipped (fun _ => none) (fun h => h) (fun _ => .exn "E")
     (fun _ => .error "E") dfC7 "website" 50 0 0
     [("website", JValue.jstr "  "), ("status", JValue.jstr "")]
     ⟨by decide, by decide⟩ rfl (by decide)).1,
   (C7_blank_identifier_skipped (fun _ => none) (fun h => h) (fun _ => .exn "E")
     (fun _ => .error "E") dfC7 "website" 50 0 0
     [("website", JValue.jstr "  "), ("status", JValue.jstr "")]
     ⟨by decide, by decide⟩ rfl (by decide)).2.2⟩

